import Mathlib

set_option maxHeartbeats 1000000
set_option maxRecDepth 100000

/-!
Shallow embedding of the DA-message core of `cdk-avail-da-server`.

The embedding covers:
* the Ethereum-ABI binary codec instantiated at the three argument lists the
  repository declares in `lib/avail/types.go` (`blobPointerArguments`,
  `envelopeArgs`, `merkleProofInputArguments`), with go-ethereum's decoder
  validations (range checks on `uint8`/`uint32` words, offset and length
  bounds checks, the empty-input check of `Arguments.Unpack`);
* the RLP encoding of `[][]byte` used by `PostSequence`/`GetSequence`
  (go-ethereum `rlp.EncodeToBytes` / `rlp.DecodeBytes`, including the
  canonical-form checks of the decoder);
* the S3 fallback store's `GetMultipleByHash`/`PutMultiple` fan-out, with the
  nondeterministic completion order of the result channel made an explicit
  permutation parameter;
* the `retry` helper of the migration tool;
* `AvailBackend.PostSequence` / `AvailBackend.GetSequence`, with the external
  collaborators (Avail chain, attestation contract, bridge, S3) abstracted as
  function-valued fields of the backend record.

Bytes are `Nat`s below 256, byte strings are `List Nat`.
-/

instance {e a : Type} [DecidableEq e] [DecidableEq a] : DecidableEq (Except e a) :=
  fun x y =>
  match x, y with
  | .error u, .error v =>
    if h : u = v then .isTrue (by rw [h]) else .isFalse (fun hc => h (by injection hc))
  | .error _, .ok _ => .isFalse (fun hc => Except.noConfusion hc)
  | .ok _, .error _ => .isFalse (fun hc => Except.noConfusion hc)
  | .ok u, .ok v =>
    if h : u = v then .isTrue (by rw [h]) else .isFalse (fun hc => h (by injection hc))

/-! ## Byte-string preliminaries -/

/-- The slice `l[i : i+n]` of a byte string. -/
def seg (l : List Nat) (i n : Nat) : List Nat := (l.drop i).take n

/-- Big-endian bytes of `n`, exactly `k` bytes wide (truncating above `256^k`). -/
def beBytes : Nat → Nat → List Nat
  | 0, _ => []
  | k+1, n => beBytes k (n / 256) ++ [n % 256]

/-- The value of a big-endian byte string. -/
def beVal (l : List Nat) : Nat := l.foldl (fun acc b => acc * 256 + b) 0

/-- A 32-byte ABI word holding the big-endian value `n`. -/
def abiWord (n : Nat) : List Nat := beBytes 32 n

/-! ## BlobPointer codec (`lib/avail/types.go`, `blobPointerArguments`) -/

/-- `BlobPointer` of `lib/avail/types.go`: `{uint8, uint32, uint32, common.Hash}`.
The hash is the raw 32-byte commitment. -/
structure BlobPointer where
  Version : Nat
  BlockHeight : Nat
  ExtrinsicIndex : Nat
  BlobDataKeccak265H : List Nat
deriving DecidableEq, Repr

/-- The value ranges enforced by the Go field types (`uint8`, `uint32`, `[32]byte`). -/
def BlobPointer.Valid (b : BlobPointer) : Prop :=
  b.Version < 256 ∧ b.BlockHeight < 2 ^ 32 ∧ b.ExtrinsicIndex < 2 ^ 32 ∧
    b.BlobDataKeccak265H.length = 32 ∧ ∀ x ∈ b.BlobDataKeccak265H, x < 256

instance (b : BlobPointer) : Decidable b.Valid := by
  unfold BlobPointer.Valid
  infer_instance

/-- `BlobPointer.MarshalToBinary`: `blobPointerArguments.PackValues` — four static
ABI words `uint8 | uint32 | uint32 | bytes32`. -/
def BlobPointer.MarshalToBinary (b : BlobPointer) : List Nat :=
  abiWord b.Version ++ abiWord b.BlockHeight ++ abiWord b.ExtrinsicIndex ++
    b.BlobDataKeccak265H

/-- `BlobPointer.UnmarshalFromBinary`: `blobPointerArguments.UnpackValues`, with
go-ethereum's per-word checks (`ReadInteger` rejects a word whose value exceeds
the integer type's range, `toGoType` rejects insufficient data). -/
def BlobPointer.UnmarshalFromBinary (data : List Nat) : Except String BlobPointer :=
  if data.length < 32 then .error "abi: cannot marshal in to go type: length insufficient"
  else
    let v := beVal (seg data 0 32)
    if 256 ≤ v then .error "abi: improperly encoded uint8 value"
    else if data.length < 64 then .error "abi: cannot marshal in to go type: length insufficient"
    else
      let bh := beVal (seg data 32 32)
      if 2 ^ 32 ≤ bh then .error "abi: improperly encoded uint32 value"
      else if data.length < 96 then .error "abi: cannot marshal in to go type: length insufficient"
      else
        let ei := beVal (seg data 64 32)
        if 2 ^ 32 ≤ ei then .error "abi: improperly encoded uint32 value"
        else if data.length < 128 then .error "abi: cannot marshal in to go type: length insufficient"
        else .ok ⟨v, bh, ei, seg data 96 32⟩

/-! ## Envelope codec (`envelopeArgs`: `(uint8, bytes)`) -/

def DAM_TYPE_BLOB_POINTER : Nat := 1

def DAM_TYPE_MERKLE_PROOF : Nat := 2

/-- Number of right-padding zero bytes go-ethereum appends when packing a
dynamic `bytes` value of length `n` (pad to a multiple of 32). -/
def padLen32 (n : Nat) : Nat := (n + 31) / 32 * 32 - n

/-- `PackEnvelopeWithMsgType`: `envelopeArgs.Pack(msgType, payload)` — a static
`uint8` head word, the offset word (64) of the dynamic `bytes` argument, then
its length word and right-padded data. -/
def PackEnvelopeWithMsgType (msgType : Nat) (payload : List Nat) : List Nat :=
  abiWord msgType ++ abiWord 64 ++ abiWord payload.length ++ payload ++
    List.replicate (padLen32 payload.length) 0

/-- `UnpackEnvelopeForMsgType`: `envelopeArgs.Unpack` — go-ethereum first rejects
empty input, reads and range-checks the `uint8` word, then follows the offset
word of the `bytes` argument with its boundary checks. -/
def UnpackEnvelopeForMsgType (data : List Nat) : Except String (Nat × List Nat) :=
  if data.length = 0 then .error "abi: unmarshalling empty output"
  else if data.length < 32 then .error "abi: cannot marshal in to go type: length insufficient"
  else
    let t := beVal (seg data 0 32)
    if 256 ≤ t then .error "abi: improperly encoded uint8 value"
    else if data.length < 64 then .error "abi: cannot marshal in to go type: length insufficient"
    else
      let off := beVal (seg data 32 32)
      if data.length < off + 32 then .error "abi: offset would go over slice boundary"
      else
        let n := beVal (seg data off 32)
        if data.length < off + 32 + n then .error "abi: length larger than output length"
        else .ok (t, seg data (off + 32) n)

/-! ## MerkleProofInput codec (`merkleProofInputArguments`) -/

/-- `MerkleProofInput` of `lib/avail/types.go`. `*big.Int` fields are modelled as
`Nat` (the claims consider them non-nil and the ABI type is `uint256`). -/
structure MerkleProofInput where
  DataRootProof : List (List Nat)
  LeafProof : List (List Nat)
  RangeHash : List Nat
  DataRootIndex : Nat
  BlobRoot : List Nat
  BridgeRoot : List Nat
  Leaf : List Nat
  LeafIndex : Nat
deriving DecidableEq, Repr

/-- A 32-byte hash value. -/
def IsHash (l : List Nat) : Prop := l.length = 32 ∧ ∀ x ∈ l, x < 256

instance (l : List Nat) : Decidable (IsHash l) := by
  unfold IsHash
  infer_instance

/-- Field ranges of a valid `MerkleProofInput`: 32-byte hashes, `uint256` indices,
and Go-int array lengths. -/
def MerkleProofInput.Valid (m : MerkleProofInput) : Prop :=
  (∀ x ∈ m.DataRootProof, IsHash x) ∧ (∀ x ∈ m.LeafProof, IsHash x) ∧
    IsHash m.RangeHash ∧ m.DataRootIndex < 2 ^ 256 ∧ IsHash m.BlobRoot ∧
    IsHash m.BridgeRoot ∧ IsHash m.Leaf ∧ m.LeafIndex < 2 ^ 256 ∧
    m.DataRootProof.length < 2 ^ 32 ∧ m.LeafProof.length < 2 ^ 32

instance (m : MerkleProofInput) : Decidable m.Valid := by
  unfold MerkleProofInput.Valid
  infer_instance

/-- Tail encoding of a `bytes32[]` value: length word, then the elements inline. -/
def hashArrayTail (hs : List (List Nat)) : List Nat := abiWord hs.length ++ hs.flatten

/-- `MerkleProofInput.EnodeToBinary`: `merkleProofInputArguments.Pack` — the outer
offset word of the one (dynamic) tuple argument, then the tuple body: eight head
words (offsets for the two `bytes32[]` fields, the static fields inline) followed
by the two array tails. -/
def MerkleProofInput.EnodeToBinary (m : MerkleProofInput) : List Nat :=
  abiWord 32 ++
    (abiWord 256 ++ (abiWord (288 + 32 * m.DataRootProof.length) ++ (m.RangeHash ++
      (abiWord m.DataRootIndex ++ (m.BlobRoot ++ (m.BridgeRoot ++ (m.Leaf ++
        (abiWord m.LeafIndex ++ (hashArrayTail m.DataRootProof ++
          hashArrayTail m.LeafProof)))))))))

/-- go-ethereum `lengthPrefixPointsTo` + `forEachUnpack` for a `bytes32[]` tuple
element whose head word sits at offset `idx` of the tuple body. -/
def unpackHashArray (body : List Nat) (idx : Nat) : Except String (List (List Nat)) :=
  if body.length < idx + 32 then .error "abi: cannot marshal in to go type: length insufficient"
  else
    let off := beVal (seg body idx 32)
    if body.length < off + 32 then .error "abi: offset would go over slice boundary"
    else
      let n := beVal (seg body off 32)
      if body.length < off + 32 + n then .error "abi: length larger than output length"
      else if body.length < off + 32 + 32 * n then .error "abi: offset would go over slice boundary"
      else .ok ((List.range n).map fun i => seg body (off + 32 + 32 * i) 32)

/-- `MerkleProofInput.DecodeFromBinary`: `merkleProofInputArguments.Unpack` — the
empty-input check, the outer tuple offset, then `forTupleUnpack` reading the
eight fields in declaration order. -/
def MerkleProofInput.DecodeFromBinary (data : List Nat) : Except String MerkleProofInput :=
  if data.length = 0 then .error "abi: unmarshalling empty output"
  else if data.length < 32 then .error "abi: cannot marshal in to go type: length insufficient"
  else
    let start := beVal (seg data 0 32)
    if data.length < start then .error "abi: offset would go over slice boundary"
    else
      let body := data.drop start
      match unpackHashArray body 0 with
      | .error e => .error e
      | .ok drp =>
        match unpackHashArray body 32 with
        | .error e => .error e
        | .ok lfp =>
          if body.length < 96 then .error "abi: cannot marshal in to go type: length insufficient"
          else if body.length < 128 then .error "abi: cannot marshal in to go type: length insufficient"
          else if body.length < 160 then .error "abi: cannot marshal in to go type: length insufficient"
          else if body.length < 192 then .error "abi: cannot marshal in to go type: length insufficient"
          else if body.length < 224 then .error "abi: cannot marshal in to go type: length insufficient"
          else if body.length < 256 then .error "abi: cannot marshal in to go type: length insufficient"
          else .ok ⟨drp, lfp, seg body 64 32, beVal (seg body 96 32), seg body 128 32,
            seg body 160 32, seg body 192 32, beVal (seg body 224 32)⟩

/-! ## RLP codec for `[][]byte` (go-ethereum `rlp.EncodeToBytes` / `rlp.DecodeBytes`) -/

/-- A byte string within Go limits: byte values below 256, length below 2^64. -/
def ByteString (l : List Nat) : Prop := (∀ b ∈ l, b < 256) ∧ l.length < 2 ^ 64

instance (l : List Nat) : Decidable (ByteString l) := by
  unfold ByteString
  infer_instance

/-- Number of bytes in the minimal big-endian representation of `n` (0 for 0). -/
def byteLen (n : Nat) : Nat := if n = 0 then 0 else Nat.log 256 n + 1

/-- Minimal big-endian bytes of `n`: empty for 0, no leading zero otherwise. -/
def beMin (n : Nat) : List Nat := beBytes (byteLen n) n

/-- RLP encoding of one byte string (go-ethereum `writeBytes`): a single byte
below 0x80 encodes as itself; up to 55 bytes get a `0x80+len` header; longer
strings get a `0xb7+lenOfLen` header followed by the big-endian length. -/
def rlpEncBytes (b : List Nat) : List Nat :=
  if b.length = 1 ∧ b.headD 0 < 128 then b
  else if b.length ≤ 55 then (128 + b.length) :: b
  else (183 + byteLen b.length) :: (beMin b.length ++ b)

/-- go-ethereum `rlp.EncodeToBytes` on `[][]byte`: the concatenated item
encodings wrapped in a list header (`0xc0+len` short form, `0xf7+lenOfLen`
long form). -/
def rlpEncodeBatches (xs : List (List Nat)) : List Nat :=
  let payload := (xs.map rlpEncBytes).flatten
  if payload.length ≤ 55 then (192 + payload.length) :: payload
  else (247 + byteLen payload.length) :: (beMin payload.length ++ payload)

/-- Parse one RLP string item, returning it and the remaining input. Mirrors
go-ethereum's `rlp.Stream` byte-string reading with its canonical-form checks
(a one-byte string below 0x80 must encode as itself; a long size must have no
leading zero and be at least 56) and its kind check (a list header is an error
where a string is expected). -/
def rlpDecStr (input : List Nat) : Except String (List Nat × List Nat) :=
  match input with
  | [] => .error "rlp: EOF"
  | b :: rest =>
    if b < 128 then .ok ([b], rest)
    else if b < 184 then
      let n := b - 128
      if rest.length < n then .error "rlp: value size exceeds available input length"
      else if n = 1 ∧ rest.headD 0 < 128 then .error "rlp: non-canonical size information"
      else .ok (rest.take n, rest.drop n)
    else if b < 192 then
      let k := b - 183
      if rest.length < k then .error "rlp: value size exceeds available input length"
      else if (rest.take k).headD 0 = 0 then .error "rlp: non-canonical size information"
      else
        let n := beVal (rest.take k)
        if n < 56 then .error "rlp: non-canonical size information"
        else if (rest.drop k).length < n then .error "rlp: value size exceeds available input length"
        else .ok ((rest.drop k).take n, (rest.drop k).drop n)
    else .error "rlp: expected input string or byte"

/-- Parse the string items filling a list payload to exhaustion. The fuel is an
upper bound on the number of items (each item consumes at least one byte). -/
def rlpDecItems : Nat → List Nat → Except String (List (List Nat))
  | _, [] => .ok []
  | 0, _ :: _ => .error "rlp: fuel exhausted"
  | fuel + 1, b :: rest =>
    match rlpDecStr (b :: rest) with
    | .error e => .error e
    | .ok (item, rest') =>
      match rlpDecItems fuel rest' with
      | .error e => .error e
      | .ok items => .ok (item :: items)

/-- go-ethereum `rlp.DecodeBytes` into `*[][]byte`: a list header (with the
canonical-form checks), the item loop, and the trailing-data check. -/
def rlpDecodeBatches (input : List Nat) : Except String (List (List Nat)) :=
  match input with
  | [] => .error "rlp: EOF"
  | b :: rest =>
    if b < 192 then .error "rlp: expected input list for [][]uint8"
    else if b < 248 then
      let n := b - 192
      if rest.length < n then .error "rlp: value size exceeds available input length"
      else if ¬ (rest.drop n = []) then .error "rlp: input contains more than one value"
      else rlpDecItems n (rest.take n)
    else
      let k := b - 247
      if rest.length < k then .error "rlp: value size exceeds available input length"
      else if (rest.take k).headD 0 = 0 then .error "rlp: non-canonical size information"
      else
        let n := beVal (rest.take k)
        if n < 56 then .error "rlp: non-canonical size information"
        else if (rest.drop k).length < n then .error "rlp: value size exceeds available input length"
        else if ¬ ((rest.drop k).drop n = []) then .error "rlp: input contains more than one value"
        else rlpDecItems n ((rest.drop k).take n)

/-! ## S3 fallback store (`s3StorageService`: `GetMultipleByHash` / `PutMultiple`)

The bounded worker fan-out is deterministic up to the order in which worker
results arrive on the result channel; that arrival order is the explicit
`order` parameter (a permutation of the input indices). The backing store's
behaviour is the `fetch`/`put` function parameter. -/

/-- One step of `GetMultipleByHash`'s collection loop: the worker result for
input index `idx` arrives; `data[res.index] = res.data` writes into the
pre-sized array, and a failure is chained onto the aggregate error
(`"one or more downloads failed: %w"` for the first, `"%v; %w"` after), which
is modelled as the list of wrapped failures in arrival order. -/
def getStep {ε : Type} (fetch : List Nat → List Nat × Option ε) (keys : List (List Nat))
    (acc : List (List Nat) × Option (List ε)) (idx : Nat) :
    List (List Nat) × Option (List ε) :=
  let r := fetch (keys.getD idx [])
  let out := acc.1.set idx r.1
  match r.2 with
  | none => (out, acc.2)
  | some e =>
    match acc.2 with
    | none => (out, some [e])
    | some es => (out, some (es ++ [e]))

/-- `S3StorageService.GetMultipleByHash`: one worker per key runs `GetByHash`;
results are collected in arrival order into `make([][]byte, len(keys))` by
index; the aggregate error chains every per-item failure. -/
def GetMultipleByHash {ε : Type} (fetch : List Nat → List Nat × Option ε)
    (keys : List (List Nat)) (order : List Nat) : List (List Nat) × Option (List ε) :=
  order.foldl (getStep fetch keys) (List.replicate keys.length [], none)

/-- `S3StorageService.PutMultiple`: one worker per value runs `Put` (keyed by the
value's content hash); each failure arriving on the channel overwrites the
aggregate error (`finalErr = fmt.Errorf("one or more uploads failed: %w", err)`),
so only the last-collected failure remains referenced. -/
def PutMultiple {ε : Type} (put : List Nat → Option ε) (values : List (List Nat))
    (order : List Nat) : Option ε :=
  order.foldl (fun acc idx =>
    match put (values.getD idx []) with
    | none => acc
    | some e => some e) none

/-- The per-item failures of a `GetMultipleByHash` call, in arrival order. -/
def collectErrs {ε : Type} (fetch : List Nat → List Nat × Option ε)
    (keys : List (List Nat)) (order : List Nat) : List ε :=
  order.filterMap (fun idx => (fetch (keys.getD idx [])).2)

/-- Closed form of the aggregate error accumulator. -/
def aggErr {ε : Type} (prev : Option (List ε)) (errs : List ε) : Option (List ε) :=
  match prev, errs with
  | none, [] => none
  | none, e :: es => some (e :: es)
  | some es, errs => some (es ++ errs)

/-! ## retry (`scripts/migration` helper `retry`) -/

/-- Execution trace of the Go `retry` loop, started at attempt number `attempt`
with `r` loop iterations left (`r = maxAttempts - attempt + 1`). The result is
(final error, number of invocations of `fn`, attempt numbers after which a
backoff wait occurred). `fn k` is the operation's outcome on its k-th
invocation; the cancellation context is modelled as never fired, and the
jittered backoff duration does not affect the trace. -/
def retryGo {ε : Type} (fn : Nat → Option ε) : Nat → Nat → Option ε × Nat × List Nat
  | 0, _ => (none, 0, [])
  | r + 1, attempt =>
    match fn attempt with
    | none => (none, 1, [])
    | some e =>
      if r = 0 then (some e, 1, [])
      else
        let t := retryGo fn r (attempt + 1)
        (t.1, t.2.1 + 1, attempt :: t.2.2)

/-- `retry(ctx, maxAttempts, baseDelay, fn)` of the migration tool: attempts
1..maxAttempts, returning early on success, waiting (exponential backoff with
jitter) after every failed non-final attempt, and returning the last error
after the final attempt. -/
def retry {ε : Type} (fn : Nat → Option ε) (maxAttempts : Nat) :
    Option ε × Nat × List Nat :=
  retryGo fn maxAttempts 1

/-! ## AvailBackend (`lib/avail/types.go`) -/

/-- Chain coordinates of a finalized submission (`avail_sdk.TransactionDetails`). -/
structure TxDetails where
  BlockNumber : Nat
  TxIndex : Nat
  BlockHash : List Nat
deriving DecidableEq, Repr

/-- `IndexType` of `lib/avail/types.go` (`LeafIndex` / `TxIndex`). -/
inductive IndexType where
  | LeafIndex
  | TxIndex
deriving DecidableEq, Repr

/-- The distinct error exits of `PostSequence`/`GetSequence` (each a distinct
`fmt.Errorf` wrapping in the Go code). -/
inductive DAError where
  | submitFailed (msg : String)
  | bridgeProofFailed (msg : String)
  | unpackEnvelopeFailed (msg : String)
  | merkleDecodeFailed (msg : String)
  | attestationFailed (msg : String)
  | blobPointerDecodeFailed (msg : String)
  | unknownMessageType (msgType : Nat)
  | chainFetchFailed (msg : String)
  | rlpDecodeFailed (msg : String)
deriving DecidableEq, Repr

/-- The S3 fallback service: the backing store's per-key download and per-value
upload outcomes, plus the arrival orders of the multi-item fan-outs. -/
structure FallbackStore where
  fetch : List Nat → List Nat × Option String
  put : List Nat → Option String
  getOrder : List (List Nat) → List Nat
  putOrder : List (List Nat) → List Nat

/-- `AvailBackend` with its external collaborators as function-valued fields:
`keccak` is `crypto.Keccak256Hash`, `submitData` the finalized chain submission,
`bridgeProof` is `getMerkleProofFromAvailBridge`, `attestations` the attestation
contract read, `getData` the chain blob read. Contexts are modelled as never
cancelled. -/
structure AvailBackend where
  bridgeEnabled : Bool
  keccak : List Nat → List Nat
  submitData : List Nat → Except String TxDetails
  bridgeProof : List Nat → Nat → Except String MerkleProofInput
  attestations : List Nat → Except String (Nat × Nat)
  getData : Nat → Nat → IndexType → Except String (List Nat)
  fallbackS3Service : Option FallbackStore

/-- The data-availability message `PostSequence` builds after a successful chain
submission: with the bridge enabled, the bridge proof wrapped as a
`MERKLE_PROOF` envelope; otherwise a version-0 `BlobPointer` carrying
`Keccak256(sequenceBlobData)` wrapped as a `BLOB_POINTER` envelope. -/
def buildDAMessage (a : AvailBackend) (td : TxDetails) (blob : List Nat) :
    Except DAError (List Nat) :=
  if a.bridgeEnabled then
    match a.bridgeProof td.BlockHash td.TxIndex with
    | .error e => .error (.bridgeProofFailed e)
    | .ok mpi => .ok (PackEnvelopeWithMsgType DAM_TYPE_MERKLE_PROOF mpi.EnodeToBinary)
  else
    .ok (PackEnvelopeWithMsgType DAM_TYPE_BLOB_POINTER
      (BlobPointer.MarshalToBinary ⟨0, td.BlockNumber, td.TxIndex, a.keccak blob⟩))

/-- `AvailBackend.PostSequence`: RLP-encode the batches, submit the blob to the
chain, build the envelope, then best-effort mirror the batches into the
fallback store — the `PutMultiple` outcome is logged and discarded. -/
def AvailBackend.PostSequence (a : AvailBackend) (batchesData : List (List Nat)) :
    Except DAError (List Nat) :=
  let blob := rlpEncodeBatches batchesData
  match a.submitData blob with
  | .error e => .error (.submitFailed e)
  | .ok td =>
    match buildDAMessage a td blob with
    | .error e => .error e
    | .ok dam =>
      match a.fallbackS3Service with
      | none => .ok dam
      | some fs =>
        match PutMultiple fs.put batchesData (fs.putOrder batchesData) with
        | none => .ok dam
        | some _ => .ok dam

/-- The `messageType` dispatch of `GetSequence`: decode the payload per variant
and resolve the chain coordinates (attestation-contract lookup keyed by `Leaf`
for `MERKLE_PROOF`, the pointer's own fields for `BLOB_POINTER`); any other
type is an unknown-message-type error. `uint32(LeafIndex.Uint64())` truncates
the attested leaf index. -/
def resolveCoords (a : AvailBackend) (msgType : Nat) (payload : List Nat) :
    Except DAError (Nat × Nat × IndexType) :=
  if msgType = DAM_TYPE_MERKLE_PROOF then
    match MerkleProofInput.DecodeFromBinary payload with
    | .error e => .error (.merkleDecodeFailed e)
    | .ok mpi =>
      match a.attestations mpi.Leaf with
      | .error e => .error (.attestationFailed e)
      | .ok (blockNumber, leafIndex) =>
        .ok (blockNumber, leafIndex % 2 ^ 32, .LeafIndex)
  else if msgType = DAM_TYPE_BLOB_POINTER then
    match BlobPointer.UnmarshalFromBinary payload with
    | .error e => .error (.blobPointerDecodeFailed e)
    | .ok bp => .ok (bp.BlockHeight, bp.ExtrinsicIndex, .TxIndex)
  else .error (.unknownMessageType msgType)

/-- The chain blob fetch and RLP decode tail of `GetSequence`. -/
def chainFetch (a : AvailBackend) (blockNumber idx : Nat) (it : IndexType) :
    Except DAError (List (List Nat)) :=
  match a.getData blockNumber idx it with
  | .error e => .error (.chainFetchFailed e)
  | .ok blobData =>
    match rlpDecodeBatches blobData with
    | .error e => .error (.rlpDecodeFailed e)
    | .ok batchesData => .ok batchesData

/-- `AvailBackend.GetSequence`: decode the envelope, dispatch on `messageType`
to resolve chain coordinates, then — when the fallback store is configured —
call `GetMultipleByHash(batchHashes)` and return its data if it reported no
error; otherwise fetch the blob from the chain and RLP-decode it. -/
def AvailBackend.GetSequence (a : AvailBackend) (batchHashes : List (List Nat))
    (dam : List Nat) : Except DAError (List (List Nat)) :=
  match UnpackEnvelopeForMsgType dam with
  | .error e => .error (.unpackEnvelopeFailed e)
  | .ok (msgType, payload) =>
    match resolveCoords a msgType payload with
    | .error e => .error e
    | .ok (blockNumber, idx, it) =>
      match a.fallbackS3Service with
      | none => chainFetch a blockNumber idx it
      | some fs =>
        let r := GetMultipleByHash fs.fetch batchHashes (fs.getOrder batchHashes)
        match r.2 with
        | none => .ok r.1
        | some _ => chainFetch a blockNumber idx it

/-! ## Concrete instances used by the witnesses -/

/-- A concrete 32-byte hash value. -/
def zeroHash : List Nat := List.replicate 32 0

/-- A backend with the bridge disabled, no fallback store, a fixed submission
result and a chain holding the RLP blob of `[[104, 105]]` at its coordinates. -/
def demoBackend : AvailBackend where
  bridgeEnabled := false
  keccak := fun _ => zeroHash
  submitData := fun _ => .ok ⟨5, 2, []⟩
  bridgeProof := fun _ _ => .error "bridge disabled"
  attestations := fun _ => .error "no attestation record"
  getData := fun bn ix it =>
    if bn = 5 ∧ ix = 2 ∧ it = IndexType.TxIndex then .ok (rlpEncodeBatches [[104, 105]])
    else .error "no blob at index"
  fallbackS3Service := none

/-- An operation that fails on attempts 1..K (K = 1) and then succeeds. -/
def c4fn : Nat → Option Nat := fun i => if 1 ≤ i ∧ i ≤ 1 then some i else none

/-- An operation failing on attempts 1..2 and succeeding from attempt 3. -/
def c4fn2 : Nat → Option Nat := fun i => if 1 ≤ i ∧ i ≤ 2 then some i else none

/-- A backing store failing the upload of both `[0]` (error 10) and `[1]`
(error 20). -/
def c5put : List Nat → Option Nat :=
  fun v => if v = [0] then some 10 else if v = [1] then some 20 else none

/-- Scenario B's backing store: key `[1]` downloads `[9, 9]`; key `[2]` fails
with error 7 producing no bytes. -/
def c5fetch : List Nat → List Nat × Option Nat :=
  fun k => if k = [1] then ([9, 9], none) else ([], some 7)

/-- A backing store mapping key `[k]` to data `[k + 100]`. -/
def c6fetch : List Nat → List Nat × Option Nat :=
  fun k => (k.map (fun x => x + 100), none)

/-- A fallback store whose backing uploads and downloads always fail. -/
def failStore : FallbackStore where
  fetch := fun _ => ([], some "download failed")
  put := fun _ => some "upload failed"
  getOrder := fun ks => List.range ks.length
  putOrder := fun ks => List.range ks.length

/-- The demo backend with the always-failing fallback store attached. -/
def c7backend : AvailBackend := { demoBackend with fallbackS3Service := some failStore }

/-- A fallback store whose backing downloads always succeed with data `[5]`. -/
def goodStore : FallbackStore where
  fetch := fun _ => ([5], none)
  put := fun _ => none
  getOrder := fun ks => List.range ks.length
  putOrder := fun ks => List.range ks.length

/-- The demo backend with the always-succeeding fallback store attached. -/
def c3backend : AvailBackend := { demoBackend with fallbackS3Service := some goodStore }

/-- The blob-pointer envelope used by the C3 and C10 witnesses. -/
def c3dam : List Nat :=
  PackEnvelopeWithMsgType DAM_TYPE_BLOB_POINTER
    (BlobPointer.MarshalToBinary ⟨0, 5, 2, zeroHash⟩)

/-! ## Lemmas: byte strings and the ABI codec -/

theorem beBytes_length (k n : Nat) : (beBytes k n).length = k := by
  induction k generalizing n with
  | zero => rfl
  | succ k ih => simp [beBytes, ih]

theorem beVal_append_one (l : List Nat) (b : Nat) :
    beVal (l ++ [b]) = beVal l * 256 + b := by
  simp [beVal, List.foldl_append]

theorem beVal_beBytes (k n : Nat) (h : n < 256 ^ k) : beVal (beBytes k n) = n := by
  induction k generalizing n with
  | zero =>
    simp only [beBytes, beVal, List.foldl_nil]
    simp [pow_zero] at h
    omega
  | succ k ih =>
    have hdiv : n / 256 < 256 ^ k := by
      have h' : n < 256 * 256 ^ k := by rw [← pow_succ']; exact h
      exact Nat.div_lt_of_lt_mul h'
    rw [beBytes, beVal_append_one, ih _ hdiv]
    omega

theorem beVal_abiWord (n : Nat) (h : n < 2 ^ 64) : beVal (abiWord n) = n := by
  have h2 : (2 : Nat) ^ 64 ≤ 256 ^ 32 := by norm_num
  exact beVal_beBytes 32 n (lt_of_lt_of_le h h2)

theorem abiWord_length (n : Nat) : (abiWord n).length = 32 := beBytes_length 32 n

theorem take_app (a b : List Nat) : (a ++ b).take a.length = a := by
  induction a with
  | nil => simp
  | cons x xs ih => simp [ih]

theorem drop_app_add (a b : List Nat) (i : Nat) :
    (a ++ b).drop (a.length + i) = b.drop i := by
  induction a with
  | nil => simp
  | cons x xs ih => simp [Nat.succ_add, ih]

theorem drop_block (a b : List Nat) (h : a.length = 32) : (a ++ b).drop 32 = b := by
  have := drop_app_add a b 0
  rw [h] at this
  simpa using this

theorem seg_zero (a b : List Nat) (n : Nat) (h : a.length = n) : seg (a ++ b) 0 n = a := by
  subst h
  simp [seg, take_app a b]

theorem seg_all (a : List Nat) (n : Nat) (h : a.length = n) : seg a 0 n = a := by
  subst h
  simp [seg]

theorem seg_drop (l : List Nat) (i j n : Nat) : seg (l.drop i) j n = seg l (i + j) n := by
  simp [seg, List.drop_drop, Nat.add_comm]

theorem blobPointer_marshal_length (b : BlobPointer) (h : b.BlobDataKeccak265H.length = 32) :
    b.MarshalToBinary.length = 128 := by
  simp [BlobPointer.MarshalToBinary, abiWord_length, h]

theorem blobPointer_roundtrip (b : BlobPointer) (h : b.Valid) :
    BlobPointer.UnmarshalFromBinary b.MarshalToBinary = .ok b := by
  obtain ⟨hv, hbh, hei, hlen, -⟩ := h
  have hlen128 : b.MarshalToBinary.length = 128 := blobPointer_marshal_length b hlen
  have d1 : b.MarshalToBinary.drop 32 =
      abiWord b.BlockHeight ++ (abiWord b.ExtrinsicIndex ++ b.BlobDataKeccak265H) := by
    simpa [BlobPointer.MarshalToBinary] using
      drop_block (abiWord b.Version) _ (abiWord_length _)
  have d2 : b.MarshalToBinary.drop 64 = abiWord b.ExtrinsicIndex ++ b.BlobDataKeccak265H := by
    have : (b.MarshalToBinary.drop 32).drop 32 =
        abiWord b.ExtrinsicIndex ++ b.BlobDataKeccak265H := by
      rw [d1]; exact drop_block _ _ (abiWord_length _)
    simpa [List.drop_drop] using this
  have d3 : b.MarshalToBinary.drop 96 = b.BlobDataKeccak265H := by
    have : (b.MarshalToBinary.drop 64).drop 32 = b.BlobDataKeccak265H := by
      rw [d2]; exact drop_block _ _ (abiWord_length _)
    simpa [List.drop_drop] using this
  have e0 : beVal (seg b.MarshalToBinary 0 32) = b.Version := by
    rw [BlobPointer.MarshalToBinary]
    simp only [List.append_assoc]
    rw [seg_zero _ _ _ (abiWord_length _)]
    exact beVal_abiWord _ (by omega)
  have e1 : beVal (seg b.MarshalToBinary 32 32) = b.BlockHeight := by
    have : seg b.MarshalToBinary 32 32 = abiWord b.BlockHeight := by
      have h' := seg_drop b.MarshalToBinary 32 0 32
      simp only [Nat.add_zero] at h'
      rw [← h', d1, seg_zero _ _ _ (abiWord_length _)]
    rw [this]
    exact beVal_abiWord _ (by omega)
  have e2 : beVal (seg b.MarshalToBinary 64 32) = b.ExtrinsicIndex := by
    have : seg b.MarshalToBinary 64 32 = abiWord b.ExtrinsicIndex := by
      have h' := seg_drop b.MarshalToBinary 64 0 32
      simp only [Nat.add_zero] at h'
      rw [← h', d2, seg_zero _ _ _ (abiWord_length _)]
    rw [this]
    exact beVal_abiWord _ (by omega)
  have e3 : seg b.MarshalToBinary 96 32 = b.BlobDataKeccak265H := by
    have h' := seg_drop b.MarshalToBinary 96 0 32
    simp only [Nat.add_zero] at h'
    rw [← h', d3, seg_all _ _ hlen]
  rw [BlobPointer.UnmarshalFromBinary]
  simp only [hlen128, e0, e1, e2, e3]
  have c2 : ¬ (256 ≤ b.Version) := by omega
  have c4 : ¬ (4294967296 ≤ b.BlockHeight) := by omega
  have c6 : ¬ (4294967296 ≤ b.ExtrinsicIndex) := by omega
  simp [c2, c4, c6]

theorem packEnvelope_length (t : Nat) (p : List Nat) :
    (PackEnvelopeWithMsgType t p).length = 96 + p.length + padLen32 p.length := by
  simp [PackEnvelopeWithMsgType, abiWord_length]
  omega

theorem envelope_roundtrip (t : Nat) (p : List Nat) (ht : t < 256)
    (hp : p.length < 2 ^ 64) :
    UnpackEnvelopeForMsgType (PackEnvelopeWithMsgType t p) = .ok (t, p) := by
  set data := PackEnvelopeWithMsgType t p with hdata
  have hlen : data.length = 96 + p.length + padLen32 p.length := packEnvelope_length t p
  have d1 : data.drop 32 = abiWord 64 ++ (abiWord p.length ++ (p ++
      List.replicate (padLen32 p.length) 0)) := by
    rw [hdata, PackEnvelopeWithMsgType]
    simp only [List.append_assoc]
    exact drop_block _ _ (abiWord_length _)
  have d2 : data.drop 64 = abiWord p.length ++ (p ++ List.replicate (padLen32 p.length) 0) := by
    have h' : (data.drop 32).drop 32 = abiWord p.length ++ (p ++
        List.replicate (padLen32 p.length) 0) := by
      rw [d1]; exact drop_block _ _ (abiWord_length _)
    simpa [List.drop_drop] using h'
  have d3 : data.drop 96 = p ++ List.replicate (padLen32 p.length) 0 := by
    have h' : (data.drop 64).drop 32 = p ++ List.replicate (padLen32 p.length) 0 := by
      rw [d2]; exact drop_block _ _ (abiWord_length _)
    simpa [List.drop_drop] using h'
  have e0 : beVal (seg data 0 32) = t := by
    rw [hdata, PackEnvelopeWithMsgType]
    simp only [List.append_assoc]
    rw [seg_zero _ _ _ (abiWord_length _)]
    exact beVal_abiWord _ (by omega)
  have e1 : beVal (seg data 32 32) = 64 := by
    have h' := seg_drop data 32 0 32
    simp only [Nat.add_zero] at h'
    rw [← h', d1, seg_zero _ _ _ (abiWord_length _)]
    exact beVal_abiWord _ (by norm_num)
  have e2 : beVal (seg data 64 32) = p.length := by
    have h' := seg_drop data 64 0 32
    simp only [Nat.add_zero] at h'
    rw [← h', d2, seg_zero _ _ _ (abiWord_length _)]
    exact beVal_abiWord _ hp
  have e3 : seg data 96 p.length = p := by
    have h' := seg_drop data 96 0 p.length
    simp only [Nat.add_zero] at h'
    rw [← h', d3, seg_zero _ _ _ rfl]
  rw [UnpackEnvelopeForMsgType]
  simp only [e0, e1, e2]
  have c0 : ¬ (data.length = 0) := by omega
  have c1 : ¬ (data.length < 32) := by omega
  have c2 : ¬ (256 ≤ t) := by omega
  have c3 : ¬ (data.length < 64) := by omega
  have c4 : ¬ (data.length < 64 + 32) := by omega
  have c5 : ¬ (data.length < 64 + 32 + p.length) := by omega
  simp only [c0, c1, c2, c3, c4, c5, if_false, if_neg]
  simp [e3]

theorem join_length32 (hs : List (List Nat)) (h : ∀ x ∈ hs, x.length = 32) :
    hs.flatten.length = 32 * hs.length := by
  induction hs with
  | nil => simp
  | cons x xs ih =>
    have hx : x.length = 32 := h x (by simp)
    have hxs : ∀ y ∈ xs, y.length = 32 := fun y hy => h y (by simp [hy])
    simp [List.flatten, hx, ih hxs]
    omega

theorem seg_join32 (hs : List (List Nat)) (rest : List Nat)
    (h : ∀ x ∈ hs, x.length = 32) (i : Nat) (hi : i < hs.length) :
    seg (hs.flatten ++ rest) (32 * i) 32 = hs.getD i [] := by
  induction hs generalizing i rest with
  | nil => simp at hi
  | cons x xs ih =>
    have hx : x.length = 32 := h x (by simp)
    have hxs : ∀ y ∈ xs, y.length = 32 := fun y hy => h y (by simp [hy])
    cases i with
    | zero =>
      rw [List.flatten_cons, List.append_assoc, Nat.mul_zero, List.getD_cons_zero]
      exact seg_zero _ _ _ hx
    | succ i =>
      have hi' : i < xs.length := by simpa using hi
      have hdrop : ((x :: xs).flatten ++ rest).drop 32 = xs.flatten ++ rest := by
        rw [List.flatten_cons, List.append_assoc]
        exact drop_block _ _ hx
      have h2 := seg_drop ((x :: xs).flatten ++ rest) 32 (32 * i) 32
      rw [hdrop] at h2
      have h3 : 32 * (i + 1) = 32 + 32 * i := by ring
      rw [h3, ← h2, ih rest hxs i hi']
      simp

theorem map_getD_range (hs : List (List Nat)) :
    (List.range hs.length).map (fun i => hs.getD i []) = hs := by
  induction hs with
  | nil => simp
  | cons x xs ih =>
    rw [List.length_cons, List.range_succ_eq_map, List.map_cons, List.map_map]
    have hcomp : ((fun i => (x :: xs).getD i []) ∘ Nat.succ) = (fun i => xs.getD i []) := by
      funext i
      simp
    rw [hcomp, ih]
    simp

theorem seg_app_add (a b : List Nat) (i n : Nat) :
    seg (a ++ b) (a.length + i) n = seg b i n := by
  rw [seg, drop_app_add]
  rfl

theorem seg_app_len (a b : List Nat) (n : Nat) : seg (a ++ b) a.length n = seg b 0 n := by
  have h := seg_app_add a b 0 n
  rw [Nat.add_zero] at h
  exact h

theorem seg_index_congr (l : List Nat) (i j n : Nat) (h : i = j) : seg l i n = seg l j n := by
  rw [h]

theorem hashArrayTail_length (hs : List (List Nat)) (h : ∀ x ∈ hs, x.length = 32) :
    (hashArrayTail hs).length = 32 + 32 * hs.length := by
  simp [hashArrayTail, abiWord_length, join_length32 hs h]

theorem drop_step (l a b : List Nat) (i : Nat) (h : l.drop i = a ++ b)
    (ha : a.length = 32) : l.drop (i + 32) = b := by
  rw [← List.drop_drop, h]
  exact drop_block _ _ ha

theorem merkleProof_roundtrip (m : MerkleProofInput) (hm : m.Valid) :
    MerkleProofInput.DecodeFromBinary m.EnodeToBinary = .ok m := by
  obtain ⟨hdrp, hlfp, hrh, hdri, hbr, hbg, hlf, hli, hn0, hn1⟩ := hm
  have hdrp32 : ∀ x ∈ m.DataRootProof, x.length = 32 := fun x hx => (hdrp x hx).1
  have hlfp32 : ∀ x ∈ m.LeafProof, x.length = 32 := fun x hx => (hlfp x hx).1
  have hj0 : m.DataRootProof.flatten.length = 32 * m.DataRootProof.length :=
    join_length32 _ hdrp32
  have hj1 : m.LeafProof.flatten.length = 32 * m.LeafProof.length :=
    join_length32 _ hlfp32
  obtain ⟨E, hE⟩ : ∃ l, l = m.EnodeToBinary := ⟨_, rfl⟩
  rw [← hE]
  have s0 : beVal (seg E 0 32) = 32 := by
    rw [hE, MerkleProofInput.EnodeToBinary, seg_zero _ _ _ (abiWord_length _)]
    exact beVal_abiWord _ (by norm_num)
  have hB : E.drop 32 = abiWord 256 ++ (abiWord (288 + 32 * m.DataRootProof.length) ++
      (m.RangeHash ++ (abiWord m.DataRootIndex ++ (m.BlobRoot ++ (m.BridgeRoot ++
      (m.Leaf ++ (abiWord m.LeafIndex ++ (hashArrayTail m.DataRootProof ++
      hashArrayTail m.LeafProof)))))))) := by
    rw [hE, MerkleProofInput.EnodeToBinary]
    exact drop_block _ _ (abiWord_length _)
  have hBlen : (E.drop 32).length =
      320 + 32 * m.DataRootProof.length + 32 * m.LeafProof.length := by
    rw [hB]
    simp only [List.length_append, abiWord_length, hashArrayTail,
      hrh.1, hbr.1, hbg.1, hlf.1, hj0, hj1]
    omega
  have hge32 : 32 ≤ E.length := by
    rw [hE, MerkleProofInput.EnodeToBinary]
    simp only [List.length_append, abiWord_length]
    omega
  have hElen : E.length =
      352 + 32 * m.DataRootProof.length + 32 * m.LeafProof.length := by
    have h2 := hBlen
    rw [List.length_drop] at h2
    omega
  have hB0 : (E.drop 32).drop 0 = abiWord 256 ++
      (abiWord (288 + 32 * m.DataRootProof.length) ++
      (m.RangeHash ++ (abiWord m.DataRootIndex ++ (m.BlobRoot ++ (m.BridgeRoot ++
      (m.Leaf ++ (abiWord m.LeafIndex ++ (hashArrayTail m.DataRootProof ++
      hashArrayTail m.LeafProof)))))))) := by
    simpa using hB
  have c1 : (E.drop 32).drop 32 = abiWord (288 + 32 * m.DataRootProof.length) ++
      (m.RangeHash ++ (abiWord m.DataRootIndex ++ (m.BlobRoot ++ (m.BridgeRoot ++
      (m.Leaf ++ (abiWord m.LeafIndex ++ (hashArrayTail m.DataRootProof ++
      hashArrayTail m.LeafProof))))))) :=
    drop_step _ _ _ 0 hB0 (abiWord_length _)
  have c2 : (E.drop 32).drop 64 = m.RangeHash ++ (abiWord m.DataRootIndex ++
      (m.BlobRoot ++ (m.BridgeRoot ++ (m.Leaf ++ (abiWord m.LeafIndex ++
      (hashArrayTail m.DataRootProof ++ hashArrayTail m.LeafProof)))))) :=
    drop_step _ _ _ 32 c1 (abiWord_length _)
  have c3 : (E.drop 32).drop 96 = abiWord m.DataRootIndex ++ (m.BlobRoot ++
      (m.BridgeRoot ++ (m.Leaf ++ (abiWord m.LeafIndex ++
      (hashArrayTail m.DataRootProof ++ hashArrayTail m.LeafProof))))) :=
    drop_step _ _ _ 64 c2 hrh.1
  have c4 : (E.drop 32).drop 128 = m.BlobRoot ++ (m.BridgeRoot ++ (m.Leaf ++
      (abiWord m.LeafIndex ++ (hashArrayTail m.DataRootProof ++
      hashArrayTail m.LeafProof)))) :=
    drop_step _ _ _ 96 c3 (abiWord_length _)
  have c5 : (E.drop 32).drop 160 = m.BridgeRoot ++ (m.Leaf ++ (abiWord m.LeafIndex ++
      (hashArrayTail m.DataRootProof ++ hashArrayTail m.LeafProof))) :=
    drop_step _ _ _ 128 c4 hbr.1
  have c6 : (E.drop 32).drop 192 = m.Leaf ++ (abiWord m.LeafIndex ++
      (hashArrayTail m.DataRootProof ++ hashArrayTail m.LeafProof)) :=
    drop_step _ _ _ 160 c5 hbg.1
  have c7 : (E.drop 32).drop 224 = abiWord m.LeafIndex ++
      (hashArrayTail m.DataRootProof ++ hashArrayTail m.LeafProof) :=
    drop_step _ _ _ 192 c6 hlf.1
  have c8 : (E.drop 32).drop 256 =
      hashArrayTail m.DataRootProof ++ hashArrayTail m.LeafProof :=
    drop_step _ _ _ 224 c7 (abiWord_length _)
  have c8' : (E.drop 32).drop 256 = abiWord m.DataRootProof.length ++
      (m.DataRootProof.flatten ++ hashArrayTail m.LeafProof) := by
    rw [c8, hashArrayTail, List.append_assoc]
  have c9 : (E.drop 32).drop 288 =
      m.DataRootProof.flatten ++ hashArrayTail m.LeafProof :=
    drop_step _ _ _ 256 c8' (abiWord_length _)
  -- the seg facts the decoder reads
  have fseg : ∀ i rest, (E.drop 32).drop i = rest →
      seg (E.drop 32) i 32 = seg rest 0 32 := by
    intro i rest hr
    have h' := seg_drop (E.drop 32) i 0 32
    rw [Nat.add_zero] at h'
    rw [← h', hr]
  have f0 : beVal (seg (E.drop 32) 0 32) = 256 := by
    rw [hB, seg_zero _ _ _ (abiWord_length _)]
    exact beVal_abiWord _ (by norm_num)
  have f32 : beVal (seg (E.drop 32) 32 32) = 288 + 32 * m.DataRootProof.length := by
    rw [fseg 32 _ c1, seg_zero _ _ _ (abiWord_length _)]
    exact beVal_abiWord _ (by omega)
  have f64 : seg (E.drop 32) 64 32 = m.RangeHash := by
    rw [fseg 64 _ c2, seg_zero _ _ _ hrh.1]
  have f96 : beVal (seg (E.drop 32) 96 32) = m.DataRootIndex := by
    rw [fseg 96 _ c3, seg_zero _ _ _ (abiWord_length _)]
    refine beVal_beBytes 32 _ ?_
    calc m.DataRootIndex < 2 ^ 256 := hdri
      _ = 256 ^ 32 := by norm_num
  have f128 : seg (E.drop 32) 128 32 = m.BlobRoot := by
    rw [fseg 128 _ c4, seg_zero _ _ _ hbr.1]
  have f160 : seg (E.drop 32) 160 32 = m.BridgeRoot := by
    rw [fseg 160 _ c5, seg_zero _ _ _ hbg.1]
  have f192 : seg (E.drop 32) 192 32 = m.Leaf := by
    rw [fseg 192 _ c6, seg_zero _ _ _ hlf.1]
  have f224 : beVal (seg (E.drop 32) 224 32) = m.LeafIndex := by
    rw [fseg 224 _ c7, seg_zero _ _ _ (abiWord_length _)]
    refine beVal_beBytes 32 _ ?_
    calc m.LeafIndex < 2 ^ 256 := hli
      _ = 256 ^ 32 := by norm_num
  have f256 : beVal (seg (E.drop 32) 256 32) = m.DataRootProof.length := by
    rw [fseg 256 _ c8', seg_zero _ _ _ (abiWord_length _)]
    exact beVal_abiWord _ (by omega)
  have fN1 : beVal (seg (E.drop 32) (288 + 32 * m.DataRootProof.length) 32) =
      m.LeafProof.length := by
    have h' := seg_drop (E.drop 32) 288 (32 * m.DataRootProof.length) 32
    rw [c9] at h'
    rw [← h']
    rw [← hj0, seg_app_len, hashArrayTail, seg_zero _ _ _ (abiWord_length _)]
    exact beVal_abiWord _ (by omega)
  -- element extraction for the two arrays
  have elem0 : ∀ i, i < m.DataRootProof.length →
      seg (E.drop 32) (256 + 32 + 32 * i) 32 = m.DataRootProof.getD i [] := by
    intro i hi
    have h' := seg_drop (E.drop 32) 288 (32 * i) 32
    rw [c9] at h'
    rw [seg_index_congr _ _ (288 + 32 * i) _ (by omega), ← h']
    exact seg_join32 _ _ hdrp32 i hi
  have elem1 : ∀ i, i < m.LeafProof.length →
      seg (E.drop 32) (288 + 32 * m.DataRootProof.length + 32 + 32 * i) 32 =
        m.LeafProof.getD i [] := by
    intro i hi
    have h' := seg_drop (E.drop 32) 288 (32 * m.DataRootProof.length + (32 + 32 * i)) 32
    rw [c9] at h'
    rw [seg_index_congr _ _ (288 + (32 * m.DataRootProof.length + (32 + 32 * i))) _
      (by omega), ← h']
    have h4 := seg_app_add m.DataRootProof.flatten (hashArrayTail m.LeafProof)
      (32 + 32 * i) 32
    rw [hj0] at h4
    rw [h4, hashArrayTail]
    have h5 := seg_app_add (abiWord m.LeafProof.length) m.LeafProof.flatten (32 * i) 32
    rw [abiWord_length] at h5
    rw [h5]
    have h6 := seg_join32 m.LeafProof [] hlfp32 i hi
    rw [List.append_nil] at h6
    exact h6
  -- the two array fields decode to the original lists
  have A0 : unpackHashArray (E.drop 32) 0 = .ok m.DataRootProof := by
    rw [unpackHashArray]
    simp only [f0, Nat.zero_add]
    rw [if_neg (by omega), if_neg (by omega)]
    simp only [f256]
    rw [if_neg (by omega), if_neg (by omega)]
    congr 1
    have hmap : ∀ i ∈ List.range m.DataRootProof.length,
        seg (E.drop 32) (256 + 32 + 32 * i) 32 = m.DataRootProof.getD i [] := by
      intro i hi
      exact elem0 i (List.mem_range.mp hi)
    rw [List.map_congr_left hmap]
    exact map_getD_range _
  have A1 : unpackHashArray (E.drop 32) 32 = .ok m.LeafProof := by
    rw [unpackHashArray]
    simp only [f32]
    rw [if_neg (by omega), if_neg (by omega)]
    simp only [fN1]
    rw [if_neg (by omega), if_neg (by omega)]
    congr 1
    have hmap : ∀ i ∈ List.range m.LeafProof.length,
        seg (E.drop 32) (288 + 32 * m.DataRootProof.length + 32 + 32 * i) 32 =
          m.LeafProof.getD i [] := by
      intro i hi
      exact elem1 i (List.mem_range.mp hi)
    rw [List.map_congr_left hmap]
    exact map_getD_range _
  -- assemble
  rw [MerkleProofInput.DecodeFromBinary]
  rw [if_neg (by omega), if_neg (by omega)]
  simp only [s0]
  rw [if_neg (by omega)]
  simp only [A0, A1]
  rw [if_neg (by omega), if_neg (by omega), if_neg (by omega), if_neg (by omega),
    if_neg (by omega), if_neg (by omega)]
  rw [f64, f96, f128, f160, f192, f224]

/-! ## Lemmas: RLP -/

theorem lt_pow_byteLen (n : Nat) : n < 256 ^ byteLen n := by
  rw [byteLen]
  by_cases h : n = 0
  · simp [h]
  · rw [if_neg h]
    exact Nat.lt_pow_succ_log_self (by norm_num) n

theorem byteLen_pos (n : Nat) (h : n ≠ 0) : 1 ≤ byteLen n := by
  rw [byteLen, if_neg h]
  omega

theorem byteLen_le_8 (n : Nat) (h : n < 2 ^ 64) : byteLen n ≤ 8 := by
  rw [byteLen]
  by_cases h0 : n = 0
  · simp [h0]
  · rw [if_neg h0]
    have hlt : Nat.log 256 n < 8 := by
      refine Nat.log_lt_of_lt_pow h0 ?_
      calc n < 2 ^ 64 := h
        _ = 256 ^ 8 := by norm_num
    omega

theorem beMin_length (n : Nat) : (beMin n).length = byteLen n := beBytes_length _ _

theorem beVal_beMin (n : Nat) : beVal (beMin n) = n :=
  beVal_beBytes _ _ (lt_pow_byteLen n)

theorem headD_append (a b : List Nat) (d : Nat) (h : a ≠ []) :
    (a ++ b).headD d = a.headD d := by
  cases a with
  | nil => exact absurd rfl h
  | cons x xs => simp

theorem beBytes_ne_nil (k n : Nat) : beBytes (k + 1) n ≠ [] := by
  intro h
  have := beBytes_length (k + 1) n
  rw [h] at this
  simp at this

theorem beBytes_head_pos (k n : Nat) (hlo : 256 ^ k ≤ n) (hhi : n < 256 ^ (k + 1)) :
    (beBytes (k + 1) n).headD 0 ≠ 0 := by
  induction k generalizing n with
  | zero =>
    have h1 : n < 256 := by simpa using hhi
    have h2 : 1 ≤ n := by simpa using hlo
    simp [beBytes, Nat.mod_eq_of_lt h1]
    omega
  | succ k ih =>
    rw [beBytes, headD_append _ _ _ (beBytes_ne_nil _ _)]
    refine ih (n / 256) ?_ ?_
    · rw [Nat.le_div_iff_mul_le (by norm_num)]
      calc 256 ^ k * 256 = 256 ^ (k + 1) := by rw [pow_succ]
        _ ≤ n := hlo
    · rw [Nat.div_lt_iff_lt_mul (by norm_num)]
      calc n < 256 ^ (k + 2) := hhi
        _ = 256 ^ (k + 1) * 256 := by rw [pow_succ]

theorem beMin_head_ne (n : Nat) (h : n ≠ 0) : (beMin n).headD 0 ≠ 0 := by
  have hbl : byteLen n = Nat.log 256 n + 1 := by rw [byteLen, if_neg h]
  rw [beMin, hbl]
  refine beBytes_head_pos _ _ ?_ ?_
  · exact Nat.pow_log_le_self 256 h
  · exact Nat.lt_pow_succ_log_self (by norm_num) n

theorem rlpEncBytes_ne_nil (b : List Nat) : rlpEncBytes b ≠ [] := by
  rw [rlpEncBytes]
  by_cases h1 : b.length = 1 ∧ b.headD 0 < 128
  · rw [if_pos h1]
    intro hb
    rw [hb] at h1
    simp at h1
  · rw [if_neg h1]
    by_cases h2 : b.length ≤ 55
    · simp [h2]
    · simp [h2]

theorem drop_app_len (a b : List Nat) : (a ++ b).drop a.length = b := by
  have h := drop_app_add a b 0
  rw [Nat.add_zero] at h
  simp only [List.drop_zero] at h
  exact h

theorem rlpDecStr_enc (x rest : List Nat) (hx : ByteString x) :
    rlpDecStr (rlpEncBytes x ++ rest) = .ok (x, rest) := by
  obtain ⟨hbytes, hlen⟩ := hx
  rw [rlpEncBytes]
  by_cases h1 : x.length = 1 ∧ x.headD 0 < 128
  · obtain ⟨hl1, hh⟩ := h1
    cases x with
    | nil => simp at hl1
    | cons b t =>
      have ht : t = [] := by
        cases t with
        | nil => rfl
        | cons y ys => simp at hl1
      subst ht
      simp only [List.headD_cons] at hh
      rw [if_pos ⟨hl1, by simpa using hh⟩]
      rw [List.cons_append, rlpDecStr]
      rw [if_pos hh]
      simp
  · rw [if_neg h1]
    by_cases h2 : x.length ≤ 55
    · rw [if_pos h2]
      rw [List.cons_append, rlpDecStr]
      rw [if_neg (by omega : ¬ (128 + x.length < 128)), if_pos (by omega : 128 + x.length < 184)]
      simp only [Nat.add_sub_cancel_left]
      have hc1 : ¬ ((x ++ rest).length < x.length) := by
        simp only [List.length_append]
        omega
      rw [if_neg hc1]
      have hc2 : ¬ (x.length = 1 ∧ (x ++ rest).headD 0 < 128) := by
        rintro ⟨ha, hb⟩
        have hne : x ≠ [] := by
          intro hnil
          rw [hnil] at ha
          simp at ha
        rw [headD_append _ _ _ hne] at hb
        exact h1 ⟨ha, hb⟩
      rw [if_neg hc2, take_app, drop_app_len]
    · rw [if_neg h2]
      rw [List.cons_append, List.append_assoc, rlpDecStr]
      have hk1 : 1 ≤ byteLen x.length := byteLen_pos _ (by omega)
      have hk8 : byteLen x.length ≤ 8 := byteLen_le_8 _ hlen
      rw [if_neg (by omega : ¬ (183 + byteLen x.length < 128)),
        if_neg (by omega : ¬ (183 + byteLen x.length < 184)),
        if_pos (by omega : 183 + byteLen x.length < 192)]
      simp only [Nat.add_sub_cancel_left]
      have htake : (beMin x.length ++ (x ++ rest)).take (byteLen x.length) =
          beMin x.length := by
        rw [← beMin_length]
        exact take_app _ _
      have hdrop : (beMin x.length ++ (x ++ rest)).drop (byteLen x.length) = x ++ rest := by
        rw [← beMin_length]
        exact drop_app_len _ _
      have hc1 : ¬ ((beMin x.length ++ (x ++ rest)).length < byteLen x.length) := by
        simp only [List.length_append, beMin_length]
        omega
      rw [if_neg hc1, htake, hdrop]
      rw [if_neg (by simpa using beMin_head_ne x.length (by omega)), beVal_beMin]
      rw [if_neg (by omega : ¬ (x.length < 56))]
      have hc2 : ¬ ((x ++ rest).length < x.length) := by
        simp only [List.length_append]
        omega
      rw [if_neg hc2, take_app, drop_app_len]

theorem rlpDecItems_enc (xs : List (List Nat)) (h : ∀ x ∈ xs, ByteString x) :
    ∀ fuel, ((xs.map rlpEncBytes).flatten.length ≤ fuel) →
      rlpDecItems fuel ((xs.map rlpEncBytes).flatten) = .ok xs := by
  induction xs with
  | nil =>
    intro fuel _
    cases fuel with
    | zero => rfl
    | succ f => rfl
  | cons x xs ih =>
    intro fuel hf
    have hx : ByteString x := h x (by simp)
    have hxs : ∀ y ∈ xs, ByteString y := fun y hy => h y (by simp [hy])
    have hflat : ((x :: xs).map rlpEncBytes).flatten =
        rlpEncBytes x ++ (xs.map rlpEncBytes).flatten := by
      simp
    have hne : rlpEncBytes x ≠ [] := rlpEncBytes_ne_nil x
    obtain ⟨b, t, hbt⟩ : ∃ b t, rlpEncBytes x = b :: t := by
      cases henc : rlpEncBytes x with
      | nil => exact absurd henc hne
      | cons b t => exact ⟨b, t, rfl⟩
    have hlen1 : 1 ≤ ((x :: xs).map rlpEncBytes).flatten.length := by
      rw [hflat, hbt]
      simp
    cases fuel with
    | zero => omega
    | succ f =>
      have hinput : ((x :: xs).map rlpEncBytes).flatten =
          b :: (t ++ (xs.map rlpEncBytes).flatten) := by
        rw [hflat, hbt, List.cons_append]
      have hstr : rlpDecStr (b :: (t ++ (xs.map rlpEncBytes).flatten)) =
          .ok (x, (xs.map rlpEncBytes).flatten) := by
        have h' := rlpDecStr_enc x ((xs.map rlpEncBytes).flatten) hx
        rw [hbt, List.cons_append] at h'
        exact h'
      have hrec : rlpDecItems f ((xs.map rlpEncBytes).flatten) = .ok xs := by
        refine ih hxs f ?_
        have : ((x :: xs).map rlpEncBytes).flatten.length =
            (b :: t).length + (xs.map rlpEncBytes).flatten.length := by
          rw [hflat, hbt, List.length_append]
        simp only [List.length_cons] at this
        omega
      rw [hinput, rlpDecItems]
      simp only [hstr, hrec]

theorem rlp_roundtrip (xs : List (List Nat)) (h : ∀ x ∈ xs, ByteString x)
    (hp : ((xs.map rlpEncBytes).flatten).length < 2 ^ 64) :
    rlpDecodeBatches (rlpEncodeBatches xs) = .ok xs := by
  rw [rlpEncodeBatches]
  by_cases hshort : ((xs.map rlpEncBytes).flatten).length ≤ 55
  · rw [if_pos hshort, rlpDecodeBatches]
    rw [if_neg (by omega : ¬ (192 + ((xs.map rlpEncBytes).flatten).length < 192)),
      if_pos (by omega : 192 + ((xs.map rlpEncBytes).flatten).length < 248)]
    simp only [Nat.add_sub_cancel_left]
    rw [if_neg (by omega : ¬ (((xs.map rlpEncBytes).flatten).length <
      ((xs.map rlpEncBytes).flatten).length))]
    rw [if_neg (by simp [List.drop_length]), List.take_length]
    exact rlpDecItems_enc xs h _ (le_refl _)
  · rw [if_neg hshort, rlpDecodeBatches]
    have hk1 : 1 ≤ byteLen ((xs.map rlpEncBytes).flatten).length :=
      byteLen_pos _ (by omega)
    have hk8 : byteLen ((xs.map rlpEncBytes).flatten).length ≤ 8 := byteLen_le_8 _ hp
    rw [if_neg (by omega : ¬ (247 + byteLen ((xs.map rlpEncBytes).flatten).length < 192)),
      if_neg (by omega : ¬ (247 + byteLen ((xs.map rlpEncBytes).flatten).length < 248))]
    simp only [Nat.add_sub_cancel_left]
    have htake : (beMin ((xs.map rlpEncBytes).flatten).length ++
        (xs.map rlpEncBytes).flatten).take (byteLen ((xs.map rlpEncBytes).flatten).length) =
        beMin ((xs.map rlpEncBytes).flatten).length := by
      rw [← beMin_length]
      exact take_app _ _
    have hdrop : (beMin ((xs.map rlpEncBytes).flatten).length ++
        (xs.map rlpEncBytes).flatten).drop (byteLen ((xs.map rlpEncBytes).flatten).length) =
        (xs.map rlpEncBytes).flatten := by
      rw [← beMin_length]
      exact drop_app_len _ _
    have hlenBM : (beMin ((xs.map rlpEncBytes).flatten).length ++
        (xs.map rlpEncBytes).flatten).length =
        byteLen ((xs.map rlpEncBytes).flatten).length +
        ((xs.map rlpEncBytes).flatten).length := by
      rw [List.length_append, beMin_length]
    have hc1 : ¬ ((beMin ((xs.map rlpEncBytes).flatten).length ++
        (xs.map rlpEncBytes).flatten).length <
        byteLen ((xs.map rlpEncBytes).flatten).length) := by
      rw [hlenBM]
      omega
    rw [if_neg hc1, htake, hdrop]
    have hne0 : ((xs.map rlpEncBytes).flatten).length ≠ 0 := by omega
    rw [if_neg (beMin_head_ne (((xs.map rlpEncBytes).flatten).length) hne0), beVal_beMin]
    rw [if_neg (by omega : ¬ (((xs.map rlpEncBytes).flatten).length < 56))]
    rw [if_neg (by omega : ¬ (((xs.map rlpEncBytes).flatten).length <
      ((xs.map rlpEncBytes).flatten).length))]
    rw [if_neg (by simp [List.drop_length]), List.take_length]
    exact rlpDecItems_enc xs h _ (le_refl _)

/-! ## Lemmas: S3 fallback store fan-out -/

theorem getStep_length {ε : Type} (fetch : List Nat → List Nat × Option ε)
    (keys : List (List Nat)) (acc : List (List Nat) × Option (List ε)) (idx : Nat) :
    (getStep fetch keys acc idx).1.length = acc.1.length := by
  rw [getStep]
  cases (fetch (keys.getD idx [])).2 with
  | none => simp
  | some e =>
    cases acc.2 with
    | none => simp
    | some es => simp

theorem getMultiple_foldl_length {ε : Type} (fetch : List Nat → List Nat × Option ε)
    (keys : List (List Nat)) (order : List Nat) :
    ∀ acc, ((order.foldl (getStep fetch keys) acc).1).length = acc.1.length := by
  induction order with
  | nil => intro acc; rfl
  | cons j rest ih =>
    intro acc
    rw [List.foldl_cons, ih]
    exact getStep_length fetch keys acc j

theorem getMultiple_length {ε : Type} (fetch : List Nat → List Nat × Option ε)
    (keys : List (List Nat)) (order : List Nat) :
    (GetMultipleByHash fetch keys order).1.length = keys.length := by
  rw [GetMultipleByHash, getMultiple_foldl_length]
  exact List.length_replicate _ _

theorem getMultiple_frame {ε : Type} (fetch : List Nat → List Nat × Option ε)
    (keys : List (List Nat)) (order : List Nat) :
    ∀ acc (i : Nat), i ∉ order →
      ((order.foldl (getStep fetch keys) acc).1)[i]? = (acc.1)[i]? := by
  induction order with
  | nil => intro acc i _; rfl
  | cons j rest ih =>
    intro acc i hni
    have hij : i ≠ j := fun h => hni (by simp [h])
    have hrest : i ∉ rest := fun h => hni (by simp [h])
    rw [List.foldl_cons, ih _ i hrest]
    rw [getStep]
    cases (fetch (keys.getD j [])).2 with
    | none => simp [List.getElem?_set_ne (Ne.symm hij)]
    | some e =>
      cases acc.2 with
      | none => simp [List.getElem?_set_ne (Ne.symm hij)]
      | some es => simp [List.getElem?_set_ne (Ne.symm hij)]

theorem getMultiple_slot_aux {ε : Type} (fetch : List Nat → List Nat × Option ε)
    (keys : List (List Nat)) (order : List Nat) :
    ∀ acc (i : Nat), i < keys.length → i ∈ order → acc.1.length = keys.length →
      ((order.foldl (getStep fetch keys) acc).1)[i]? =
        some (fetch (keys.getD i [])).1 := by
  induction order with
  | nil => intro acc i _ hmem _; simp at hmem
  | cons j rest ih =>
    intro acc i hi hmem hlen
    by_cases hrest : i ∈ rest
    · rw [List.foldl_cons]
      exact ih _ i hi hrest (by rw [getStep_length]; exact hlen)
    · have hij : i = j := by
        rcases List.mem_cons.mp hmem with h | h
        · exact h
        · exact absurd h hrest
      subst hij
      rw [List.foldl_cons, getMultiple_frame fetch keys rest _ i hrest]
      have hset : ((getStep fetch keys acc i).1)[i]? = some (fetch (keys.getD i [])).1 := by
        rw [getStep]
        have hilen : i < acc.1.length := by omega
        cases (fetch (keys.getD i [])).2 with
        | none => simp [List.getElem?_set_self hilen]
        | some e =>
          cases acc.2 with
          | none => simp [List.getElem?_set_self hilen]
          | some es => simp [List.getElem?_set_self hilen]
      exact hset

/-- Output slot `i` of `GetMultipleByHash` always holds the data fetched for
input key `i`, for any arrival order covering all indices. -/
theorem getMultiple_slot {ε : Type} (fetch : List Nat → List Nat × Option ε)
    (keys : List (List Nat)) (order : List Nat) (i : Nat) (hi : i < keys.length)
    (hmem : i ∈ order) :
    ((GetMultipleByHash fetch keys order).1)[i]? = some (fetch (keys.getD i [])).1 := by
  rw [GetMultipleByHash]
  exact getMultiple_slot_aux fetch keys order _ i hi hmem (List.length_replicate _ _)

theorem getMultiple_err_aux {ε : Type} (fetch : List Nat → List Nat × Option ε)
    (keys : List (List Nat)) (order : List Nat) :
    ∀ acc, ((order.foldl (getStep fetch keys) acc).2) =
      aggErr acc.2 (collectErrs fetch keys order) := by
  induction order with
  | nil =>
    intro acc
    rw [List.foldl_nil, collectErrs, List.filterMap_nil]
    cases acc.2 with
    | none => rfl
    | some es => simp [aggErr]
  | cons j rest ih =>
    intro acc
    rw [List.foldl_cons, ih]
    have hcol : collectErrs fetch keys (j :: rest) =
        match (fetch (keys.getD j [])).2 with
        | none => collectErrs fetch keys rest
        | some e => e :: collectErrs fetch keys rest := by
      rw [collectErrs, List.filterMap_cons]
      cases (fetch (keys.getD j [])).2 with
      | none => rfl
      | some e => rfl
    rw [hcol, getStep]
    cases hfj : (fetch (keys.getD j [])).2 with
    | none => rfl
    | some e =>
      cases hacc : acc.2 with
      | none =>
        simp only [hacc, aggErr]
        cases collectErrs fetch keys rest with
        | nil => rfl
        | cons y ys => rfl
      | some es =>
        simp only [hacc, aggErr]
        simp

/-- The aggregate error of `GetMultipleByHash` is `none` exactly when no item
failed, and otherwise lists every per-item failure in arrival order. -/
theorem getMultiple_err {ε : Type} (fetch : List Nat → List Nat × Option ε)
    (keys : List (List Nat)) (order : List Nat) :
    (GetMultipleByHash fetch keys order).2 =
      match collectErrs fetch keys order with
      | [] => none
      | e :: es => some (e :: es) := by
  rw [GetMultipleByHash, getMultiple_err_aux]
  cases collectErrs fetch keys order with
  | nil => rfl
  | cons e es => rfl

/-- `PutMultiple`'s aggregate error is the last failure in arrival order. -/
theorem putMultiple_eq {ε : Type} (put : List Nat → Option ε) (values : List (List Nat))
    (order : List Nat) :
    PutMultiple put values order =
      (order.filterMap (fun idx => put (values.getD idx []))).getLast? := by
  rw [PutMultiple]
  have hgen : ∀ (o : List Nat) (acc : Option ε),
      o.foldl (fun acc idx =>
        match put (values.getD idx []) with
        | none => acc
        | some e => some e) acc =
      match (o.filterMap (fun idx => put (values.getD idx []))).getLast? with
      | none => acc
      | some e => some e := by
    intro o
    induction o with
    | nil => intro acc; rfl
    | cons j rest ih =>
      intro acc
      rw [List.foldl_cons, List.filterMap_cons]
      cases hj : put (values.getD j []) with
      | none => exact ih acc
      | some e =>
        rw [ih (some e)]
        cases hrest : (rest.filterMap (fun idx => put (values.getD idx []))).getLast? with
        | none =>
          have : (e :: rest.filterMap (fun idx => put (values.getD idx []))).getLast? =
              some e := by
            cases hfm : rest.filterMap (fun idx => put (values.getD idx [])) with
            | nil => rfl
            | cons y ys =>
              rw [hfm] at hrest
              simp [List.getLast?] at hrest
          rw [this]
        | some e' =>
          have : (e :: rest.filterMap (fun idx => put (values.getD idx []))).getLast? =
              some e' := by
            cases hfm : rest.filterMap (fun idx => put (values.getD idx [])) with
            | nil => rw [hfm] at hrest; simp at hrest
            | cons y ys =>
              rw [hfm] at hrest
              rw [List.getLast?_cons_cons, hrest]  
          rw [this]
  rw [hgen]
  cases (order.filterMap (fun idx => put (values.getD idx []))).getLast? with
  | none => rfl
  | some e => rfl

/-! ## Lemmas: retry -/

theorem retryGo_succeeds {ε : Type} (fn : Nat → Option ε) (errAt : Nat → ε) (K : Nat)
    (hfail : ∀ i, 1 ≤ i → i ≤ K → fn i = some (errAt i))
    (hsucc : ∀ i, K < i → fn i = none) :
    ∀ r a, 1 ≤ a → a ≤ K + 1 → K + 2 - a ≤ r →
      retryGo fn r a = (none, K + 2 - a, List.range' a (K + 1 - a)) := by
  intro r
  induction r with
  | zero => intro a h1 h2 h3; omega
  | succ r ih =>
    intro a h1 h2 h3
    by_cases ha : a ≤ K
    · rw [retryGo, hfail a h1 ha]
      have hr : ¬ (r = 0) := by omega
      dsimp only
      rw [if_neg hr]
      have ht := ih (a + 1) (by omega) (by omega) (by omega)
      rw [ht]
      have h4 : K + 2 - (a + 1) + 1 = K + 2 - a := by omega
      have h5 : K + 1 - a = (K + 1 - (a + 1)) + 1 := by omega
      rw [h5, List.range'_succ]
      simp [h4]
      omega
    · have ha1 : a = K + 1 := by omega
      subst ha1
      rw [retryGo, hsucc (K + 1) (by omega)]
      dsimp only
      have h4 : K + 2 - (K + 1) = 1 := by omega
      have h5 : K + 1 - (K + 1) = 0 := by omega
      rw [h4, h5]
      rfl

theorem retryGo_fails {ε : Type} (fn : Nat → Option ε) (errAt : Nat → ε) (K : Nat)
    (hfail : ∀ i, 1 ≤ i → i ≤ K → fn i = some (errAt i)) :
    ∀ r a, 1 ≤ r → 1 ≤ a → a + r ≤ K + 1 →
      retryGo fn r a = (some (errAt (a + r - 1)), r, List.range' a (r - 1)) := by
  intro r
  induction r with
  | zero => intro a h1 _ _; omega
  | succ r ih =>
    intro a _ h2 h3
    rw [retryGo, hfail a h2 (by omega)]
    dsimp only
    by_cases hr : r = 0
    · subst hr
      rw [if_pos (rfl : (0 : Nat) = 0)]
      have h4 : a + 1 - 1 = a := by omega
      rw [h4]
      rfl
    · rw [if_neg hr]
      have ht := ih (a + 1) (by omega) (by omega) (by omega)
      rw [ht]
      have h4 : a + 1 + r - 1 = a + (r + 1) - 1 := by omega
      have h5 : r + 1 - 1 = (r - 1) + 1 := by omega
      rw [h5, List.range'_succ]
      simp [h4]

/-! ## C1 -/

/-- C1: round-trips of the three binary codecs are exact — for every valid
`BlobPointer`, `UnmarshalFromBinary (MarshalToBinary b) = b`; for every valid
`MerkleProofInput` (non-nil big-integer fields, modelled as `Nat`),
`DecodeFromBinary (EnodeToBinary m) = m`; and for every valid envelope pair,
`UnpackEnvelopeForMsgType (PackEnvelopeWithMsgType t p) = (t, p)`. -/
theorem c1_codec_roundtrip_exact :
    (∀ b : BlobPointer, b.Valid →
      BlobPointer.UnmarshalFromBinary b.MarshalToBinary = .ok b) ∧
    (∀ m : MerkleProofInput, m.Valid →
      MerkleProofInput.DecodeFromBinary m.EnodeToBinary = .ok m) ∧
    (∀ (t : Nat) (p : List Nat), t < 256 → ByteString p →
      UnpackEnvelopeForMsgType (PackEnvelopeWithMsgType t p) = .ok (t, p)) :=
  ⟨blobPointer_roundtrip, merkleProof_roundtrip,
    fun t p ht hp => envelope_roundtrip t p ht hp.2⟩

/-- Witness for C1 at concrete values of all three codecs. -/
theorem c1_codec_roundtrip_exact_witness :
    BlobPointer.UnmarshalFromBinary
      (BlobPointer.MarshalToBinary ⟨0, 7, 3, List.replicate 32 170⟩) =
      .ok ⟨0, 7, 3, List.replicate 32 170⟩ ∧
    MerkleProofInput.DecodeFromBinary
      (MerkleProofInput.EnodeToBinary
        ⟨[List.replicate 32 1], [], List.replicate 32 2, 5, List.replicate 32 3,
          List.replicate 32 4, List.replicate 32 6, 9⟩) =
      .ok ⟨[List.replicate 32 1], [], List.replicate 32 2, 5, List.replicate 32 3,
        List.replicate 32 4, List.replicate 32 6, 9⟩ ∧
    UnpackEnvelopeForMsgType (PackEnvelopeWithMsgType 1 [10, 11]) = .ok (1, [10, 11]) :=
  ⟨c1_codec_roundtrip_exact.1 _ (by decide),
   c1_codec_roundtrip_exact.2.1 _ (by decide),
   c1_codec_roundtrip_exact.2.2 1 [10, 11] (by decide) (by decide)⟩

theorem beBytes_zero (k : Nat) : beBytes k 0 = List.replicate k 0 := by
  induction k with
  | zero => rfl
  | succ k ih =>
    rw [beBytes, Nat.zero_div, Nat.zero_mod, ih]
    rw [← List.replicate_succ' k 0]

theorem abiWord_small (t : Nat) (ht : t < 256) :
    abiWord t = List.replicate 31 0 ++ [t] := by
  rw [abiWord]
  show beBytes (31 + 1) t = _
  rw [beBytes, Nat.div_eq_of_lt ht, Nat.mod_eq_of_lt ht, beBytes_zero]

/-! ## C8 -/

/-- C8 counterexample: the wire bytes of `PackEnvelopeWithMsgType 1 []` start
with a zero pad byte — byte 0 is 0x00, not the messageType 0x01, which sits at
byte 31 of the big-endian `uint8` head word. -/
theorem c8_counterexample :
    (PackEnvelopeWithMsgType 1 [])[0]? = some 0 ∧
      (PackEnvelopeWithMsgType 1 [])[31]? = some 1 := by decide

/-- C8 amended: the messageType occupies byte 31 of the first 32-byte word
(bytes 0..30 are zero — the `uint8` is right-aligned in its ABI word), and the
remaining bytes are the dynamic-byte-array encoding of the payload: the offset
word 64, the length word, the payload data, zero padding to a 32-byte
multiple. -/
theorem c8_envelope_wire_format (t : Nat) (p : List Nat) (ht : t < 256) :
    (PackEnvelopeWithMsgType t p)[31]? = some t ∧
    (∀ i, i < 31 → (PackEnvelopeWithMsgType t p)[i]? = some 0) ∧
    (PackEnvelopeWithMsgType t p).drop 32 =
      abiWord 64 ++ abiWord p.length ++ p ++
        List.replicate (padLen32 p.length) 0 := by
  have hw : abiWord t = List.replicate 31 0 ++ [t] := abiWord_small t ht
  refine ⟨?_, ?_, ?_⟩
  · rw [PackEnvelopeWithMsgType, hw]
    simp only [List.append_assoc]
    rw [List.getElem?_append_right (by rw [List.length_replicate])]
    simp
  · intro i hi
    rw [PackEnvelopeWithMsgType, hw]
    simp only [List.append_assoc]
    rw [List.getElem?_append_left (by rw [List.length_replicate]; omega)]
    exact List.getElem?_replicate_of_lt hi
  · rw [PackEnvelopeWithMsgType]
    simp only [List.append_assoc]
    rw [drop_block _ _ (abiWord_length _)]

/-- Witness for the amended C8 at messageType 2, payload `[7]`. -/
theorem c8_envelope_wire_format_witness :
    (PackEnvelopeWithMsgType 2 [7])[31]? = some 2 ∧
    (PackEnvelopeWithMsgType 2 [7])[0]? = some 0 ∧
    (PackEnvelopeWithMsgType 2 [7]).drop 32 =
      abiWord 64 ++ abiWord 1 ++ [7] ++ List.replicate 31 0 :=
  ⟨(c8_envelope_wire_format 2 [7] (by decide)).1,
   (c8_envelope_wire_format 2 [7] (by decide)).2.1 0 (by decide),
   (c8_envelope_wire_format 2 [7] (by decide)).2.2⟩

/-! ## C9 -/

/-- C9: a structurally well-formed envelope whose messageType lies outside
{0x01, 0x02} still decodes successfully (`UnpackEnvelopeForMsgType` does not
validate membership), and `GetSequence` dispatching on it fails with exactly
the unknown-message-type error — for every backend and every `batchHashes`. -/
theorem c9_unknown_message_type (t : Nat) (p : List Nat) (ht : t < 256)
    (hp : ByteString p) (h1 : t ≠ DAM_TYPE_BLOB_POINTER)
    (h2 : t ≠ DAM_TYPE_MERKLE_PROOF) :
    UnpackEnvelopeForMsgType (PackEnvelopeWithMsgType t p) = .ok (t, p) ∧
    ∀ (a : AvailBackend) (batchHashes : List (List Nat)),
      a.GetSequence batchHashes (PackEnvelopeWithMsgType t p) =
        .error (.unknownMessageType t) := by
  have hdec := envelope_roundtrip t p ht hp.2
  refine ⟨hdec, ?_⟩
  intro a batchHashes
  rw [AvailBackend.GetSequence, hdec]
  have hres : resolveCoords a t p = .error (.unknownMessageType t) := by
    rw [resolveCoords, if_neg h2, if_neg h1]
  simp only [hres]

/-- Witness for C9 at messageType 3 on a concrete backend. -/
theorem c9_unknown_message_type_witness :
    UnpackEnvelopeForMsgType (PackEnvelopeWithMsgType 3 []) = .ok (3, []) ∧
    AvailBackend.GetSequence demoBackend [] (PackEnvelopeWithMsgType 3 []) =
      .error (.unknownMessageType 3) :=
  ⟨(c9_unknown_message_type 3 [] (by decide) (by decide) (by decide) (by decide)).1,
   (c9_unknown_message_type 3 [] (by decide) (by decide) (by decide) (by decide)).2
     demoBackend []⟩

/-! ## C4 -/

/-- C4 counterexample: with `maxAttempts = 0` (which is `≤ K = 1`) the loop
body never runs: `retry` makes 0 invocations and returns the zero value of
`err`, i.e. success (`nil`), not "the last error" the claim promises for
`maxAttempts <= K`. -/
theorem c4_counterexample :
    retry c4fn 0 = ((none : Option Nat), 0, []) ∧ c4fn 1 = some 1 := by decide

/-- C4 amended: for an operation failing exactly K times then succeeding, with
`maxAttempts > K` retry invokes it exactly K+1 times and returns success; with
`1 ≤ maxAttempts ≤ K` it invokes it exactly `maxAttempts` times and returns
the last error; in both cases the backoff waits are exactly the failed
non-final attempts (`1..calls-1`), so no wait follows the final attempt. With
`maxAttempts = 0` the operation is never invoked and retry returns nil. -/
theorem c4_retry_budget {ε : Type} (errAt : Nat → ε) (K maxAttempts : Nat)
    (fn : Nat → Option ε)
    (hfail : ∀ i, 1 ≤ i → i ≤ K → fn i = some (errAt i))
    (hsucc : ∀ i, K < i → fn i = none) :
    (K < maxAttempts →
      retry fn maxAttempts = (none, K + 1, List.range' 1 K)) ∧
    (1 ≤ maxAttempts → maxAttempts ≤ K →
      retry fn maxAttempts =
        (some (errAt maxAttempts), maxAttempts, List.range' 1 (maxAttempts - 1))) ∧
    retry fn 0 = (none, 0, []) := by
  refine ⟨?_, ?_, rfl⟩
  · intro h
    rw [retry, retryGo_succeeds fn errAt K hfail hsucc maxAttempts 1 (by omega)
      (by omega) (by omega)]
    have e1 : K + 2 - 1 = K + 1 := by omega
    have e2 : K + 1 - 1 = K := by omega
    rw [e1, e2]
  · intro h1 h2
    rw [retry, retryGo_fails fn errAt K hfail maxAttempts 1 h1 (by omega) (by omega)]
    have e1 : 1 + maxAttempts - 1 = maxAttempts := by omega
    rw [e1]

/-- Witness for the amended C4 at K = 2: `maxAttempts = 4` gives 3 invocations,
success, waits after attempts 1 and 2 only; `maxAttempts = 2` gives 2
invocations, the error of attempt 2, a wait after attempt 1 only. -/
theorem c4_retry_budget_witness :
    retry c4fn2 4 = ((none : Option Nat), 3, [1, 2]) ∧
    retry c4fn2 2 = (some 2, 2, [1]) ∧
    retry c4fn2 0 = (none, 0, []) := by
  have hfail : ∀ i, 1 ≤ i → i ≤ 2 → c4fn2 i = some i := by
    intro i h1 h2
    rw [c4fn2]
    simp [h1, h2]
  have hsucc : ∀ i, 2 < i → c4fn2 i = none := by
    intro i h
    rw [c4fn2]
    simp
    omega
  have h := c4_retry_budget (fun i => i) 2 4 c4fn2 hfail hsucc
  have h' := c4_retry_budget (fun i => i) 2 2 c4fn2 hfail hsucc
  refine ⟨?_, ?_, h.2.2⟩
  · have := h.1 (by omega)
    simpa using this
  · have := h'.2.1 (by omega) (by omega)
    simpa using this

/-! ## C5 -/

/-- C5 counterexample: `PutMultiple` over two values that both fail returns an
aggregate error wrapping only the last-collected failure (error 20) — each new
failure overwrites `finalErr` (`finalErr = fmt.Errorf("one or more uploads
failed: %w", err)`), so the failure of the other item (error 10) is not
referenced, contradicting "a combined error referencing all per-item
failures". -/
theorem c5_counterexample :
    c5put [0] = some 10 ∧ c5put [1] = some 20 ∧
      PutMultiple c5put [[0], [1]] [0, 1] = some 20 := by decide

/-- C5 amended: `GetMultipleByHash` keeps partial-success semantics — the full
result array (index i holding what the backing download for key i produced,
empty slots where a failed download wrote nothing) plus an aggregate error
chaining all per-item failures in arrival order, `none` exactly when no item
failed. `PutMultiple` attempts every item but its non-nil aggregate error
wraps only the last-collected failure, not all of them. -/
theorem c5_partial_success {ε : Type} (fetch : List Nat → List Nat × Option ε)
    (put : List Nat → Option ε) (keys values : List (List Nat))
    (order order' : List Nat) (hord : order.Perm (List.range keys.length)) :
    ((GetMultipleByHash fetch keys order).1.length = keys.length) ∧
    (∀ i, i < keys.length → ((GetMultipleByHash fetch keys order).1)[i]? =
      some (fetch (keys.getD i [])).1) ∧
    ((GetMultipleByHash fetch keys order).2 =
      match collectErrs fetch keys order with
      | [] => none
      | e :: es => some (e :: es)) ∧
    (PutMultiple put values order' =
      (order'.filterMap (fun idx => put (values.getD idx []))).getLast?) := by
  refine ⟨getMultiple_length fetch keys order, ?_, getMultiple_err fetch keys order,
    putMultiple_eq put values order'⟩
  intro i hi
  have hmem : i ∈ order := hord.mem_iff.mpr (List.mem_range.mpr hi)
  exact getMultiple_slot fetch keys order i hi hmem

/-- Witness for the amended C5: scenario B — `getMultipleByHash([h1, h2])` with
the backing store failing only on `h2` returns `[data1, <empty>]` plus an
aggregate error referencing the one failure; and `PutMultiple` over the two
failing uploads yields the last-collected failure. -/
theorem c5_partial_success_witness :
    ((GetMultipleByHash c5fetch [[1], [2]] [1, 0]).1)[0]? = some [9, 9] ∧
    ((GetMultipleByHash c5fetch [[1], [2]] [1, 0]).1)[1]? = some [] ∧
    ((GetMultipleByHash c5fetch [[1], [2]] [1, 0]).2 = some [7]) ∧
    PutMultiple c5put [[0], [1]] [1, 0] = some 10 := by
  have h := c5_partial_success c5fetch c5put [[1], [2]] [[0], [1]] [1, 0] [1, 0]
    (by decide)
  refine ⟨?_, ?_, ?_, ?_⟩
  · have := h.2.1 0 (by decide)
    simpa using this
  · have := h.2.1 1 (by decide)
    simpa using this
  · rw [h.2.2.1]
    decide
  · rw [h.2.2.2]
    decide

/-! ## C6 -/

/-- C6: the output array of `GetMultipleByHash` over N keys has length N and
its index i always holds the result fetched for input key i — for every
arrival order of the racing workers (any permutation of the indices), because
results are written into the pre-sized array by index, never appended. -/
theorem c6_order_preservation {ε : Type} (fetch : List Nat → List Nat × Option ε)
    (keys : List (List Nat)) (order : List Nat)
    (hord : order.Perm (List.range keys.length)) :
    ((GetMultipleByHash fetch keys order).1.length = keys.length) ∧
    ∀ i, i < keys.length → ((GetMultipleByHash fetch keys order).1)[i]? =
      some (fetch (keys.getD i [])).1 := by
  refine ⟨getMultiple_length fetch keys order, ?_⟩
  intro i hi
  have hmem : i ∈ order := hord.mem_iff.mpr (List.mem_range.mpr hi)
  exact getMultiple_slot fetch keys order i hi hmem

/-- Witness for C6 over N = 3 keys with the arrival order fully reversed
(item i finishing with latency N−i, last requested first): output index i
still corresponds to request index i. -/
theorem c6_order_preservation_witness :
    ((GetMultipleByHash c6fetch [[1], [2], [3]] [2, 1, 0]).1.length = 3) ∧
    ((GetMultipleByHash c6fetch [[1], [2], [3]] [2, 1, 0]).1)[0]? = some [101] ∧
    ((GetMultipleByHash c6fetch [[1], [2], [3]] [2, 1, 0]).1)[1]? = some [102] ∧
    ((GetMultipleByHash c6fetch [[1], [2], [3]] [2, 1, 0]).1)[2]? = some [103] := by
  have h := c6_order_preservation c6fetch [[1], [2], [3]] [2, 1, 0] (by decide)
  refine ⟨h.1, ?_, ?_, ?_⟩
  · have := h.2 0 (by decide)
    simpa using this
  · have := h.2 1 (by decide)
    simpa using this
  · have := h.2 2 (by decide)
    simpa using this

/-! ## Lemmas: PostSequence -/

/-- Whenever the chain submission succeeds and the envelope is built,
`PostSequence` returns the envelope whatever the fallback store does. -/
theorem postSequence_ok (a : AvailBackend) (batches : List (List Nat))
    (td : TxDetails) (dam : List Nat)
    (hsub : a.submitData (rlpEncodeBatches batches) = .ok td)
    (hdam : buildDAMessage a td (rlpEncodeBatches batches) = .ok dam) :
    a.PostSequence batches = .ok dam := by
  rw [AvailBackend.PostSequence]
  simp only [hsub, hdam]
  cases a.fallbackS3Service with
  | none => rfl
  | some fs =>
    show (match PutMultiple fs.put batches (fs.putOrder batches) with
      | none => (Except.ok dam : Except DAError (List Nat))
      | some _ => Except.ok dam) = Except.ok dam
    cases PutMultiple fs.put batches (fs.putOrder batches) with
    | none => rfl
    | some e => rfl

/-! ## C7 -/

/-- C7: once chain submission has succeeded and the pointer envelope is built,
a failure of the best-effort fallback-store write cannot change
`PostSequence`'s result — the backend's `PutMultiple` behaviour (including one
that always fails) is arbitrary here, and the same envelope bytes are returned
with no error. -/
theorem c7_fallback_write_failure_ignored (a : AvailBackend)
    (batches : List (List Nat)) (td : TxDetails) (dam : List Nat)
    (hsub : a.submitData (rlpEncodeBatches batches) = .ok td)
    (hdam : buildDAMessage a td (rlpEncodeBatches batches) = .ok dam) :
    a.PostSequence batches = .ok dam :=
  postSequence_ok a batches td dam hsub hdam

/-- Witness for C7: with every upload failing, `PostSequence` still returns the
blob-pointer envelope with no error. -/
theorem c7_fallback_write_failure_ignored_witness :
    AvailBackend.PostSequence c7backend [[104, 105]] =
      .ok (PackEnvelopeWithMsgType DAM_TYPE_BLOB_POINTER
        (BlobPointer.MarshalToBinary ⟨0, 5, 2, zeroHash⟩)) :=
  c7_fallback_write_failure_ignored c7backend [[104, 105]] ⟨5, 2, []⟩ _ rfl rfl

/-! ## C2 -/

/-- C2: with the bridge disabled and a successful chain submission,
`PostSequence` returns envelope bytes that decode to messageType
`BLOB_POINTER` with version 0 and commitment `Keccak256(rlp(batches))`; and
`GetSequence` on those bytes with no fallback hit (no store configured)
returns the original batch sequence from the chain. -/
theorem c2_post_then_get (a : AvailBackend) (batches : List (List Nat))
    (td : TxDetails)
    (_hne : batches ≠ [])
    (hwf : ∀ x ∈ batches, ByteString x)
    (hblob : ((batches.map rlpEncBytes).flatten).length < 2 ^ 64)
    (hbridge : a.bridgeEnabled = false)
    (hsub : a.submitData (rlpEncodeBatches batches) = .ok td)
    (hkec : IsHash (a.keccak (rlpEncodeBatches batches)))
    (htd1 : td.BlockNumber < 2 ^ 32) (htd2 : td.TxIndex < 2 ^ 32)
    (hfb : a.fallbackS3Service = none)
    (hchain : a.getData td.BlockNumber td.TxIndex .TxIndex =
      .ok (rlpEncodeBatches batches)) :
    a.PostSequence batches =
      .ok (PackEnvelopeWithMsgType DAM_TYPE_BLOB_POINTER
        (BlobPointer.MarshalToBinary
          ⟨0, td.BlockNumber, td.TxIndex, a.keccak (rlpEncodeBatches batches)⟩)) ∧
    UnpackEnvelopeForMsgType
        (PackEnvelopeWithMsgType DAM_TYPE_BLOB_POINTER
          (BlobPointer.MarshalToBinary
            ⟨0, td.BlockNumber, td.TxIndex, a.keccak (rlpEncodeBatches batches)⟩)) =
      .ok (DAM_TYPE_BLOB_POINTER, BlobPointer.MarshalToBinary
        ⟨0, td.BlockNumber, td.TxIndex, a.keccak (rlpEncodeBatches batches)⟩) ∧
    BlobPointer.UnmarshalFromBinary
        (BlobPointer.MarshalToBinary
          ⟨0, td.BlockNumber, td.TxIndex, a.keccak (rlpEncodeBatches batches)⟩) =
      .ok ⟨0, td.BlockNumber, td.TxIndex, a.keccak (rlpEncodeBatches batches)⟩ ∧
    a.GetSequence []
        (PackEnvelopeWithMsgType DAM_TYPE_BLOB_POINTER
          (BlobPointer.MarshalToBinary
            ⟨0, td.BlockNumber, td.TxIndex, a.keccak (rlpEncodeBatches batches)⟩)) =
      .ok batches := by
  have hbp : (⟨0, td.BlockNumber, td.TxIndex,
      a.keccak (rlpEncodeBatches batches)⟩ : BlobPointer).Valid := by
    refine ⟨?_, htd1, htd2, hkec.1, hkec.2⟩
    show (0 : Nat) < 256
    decide
  have hplen : (BlobPointer.MarshalToBinary
      ⟨0, td.BlockNumber, td.TxIndex, a.keccak (rlpEncodeBatches batches)⟩).length
      < 2 ^ 64 := by
    rw [blobPointer_marshal_length _ hkec.1]
    norm_num
  have hdec := envelope_roundtrip DAM_TYPE_BLOB_POINTER _ (by decide) hplen
  have hdam : buildDAMessage a td (rlpEncodeBatches batches) =
      .ok (PackEnvelopeWithMsgType DAM_TYPE_BLOB_POINTER
        (BlobPointer.MarshalToBinary
          ⟨0, td.BlockNumber, td.TxIndex, a.keccak (rlpEncodeBatches batches)⟩)) := by
    rw [buildDAMessage, hbridge]
    simp
  refine ⟨postSequence_ok a batches td _ hsub hdam, hdec,
    blobPointer_roundtrip _ hbp, ?_⟩
  rw [AvailBackend.GetSequence, hdec]
  have hres : resolveCoords a DAM_TYPE_BLOB_POINTER
      (BlobPointer.MarshalToBinary
        ⟨0, td.BlockNumber, td.TxIndex, a.keccak (rlpEncodeBatches batches)⟩) =
      .ok (td.BlockNumber, td.TxIndex, .TxIndex) := by
    rw [resolveCoords, if_neg (by decide : ¬ (DAM_TYPE_BLOB_POINTER =
      DAM_TYPE_MERKLE_PROOF)), if_pos rfl, blobPointer_roundtrip _ hbp]
  simp only [hres, hfb]
  rw [chainFetch, hchain]
  simp only [rlp_roundtrip batches hwf hblob]

/-- Witness for C2: scenario A on the demo backend with batches `[[104, 105]]`. -/
theorem c2_post_then_get_witness :
    AvailBackend.PostSequence demoBackend [[104, 105]] =
      .ok (PackEnvelopeWithMsgType DAM_TYPE_BLOB_POINTER
        (BlobPointer.MarshalToBinary ⟨0, 5, 2, zeroHash⟩)) ∧
    UnpackEnvelopeForMsgType
        (PackEnvelopeWithMsgType DAM_TYPE_BLOB_POINTER
          (BlobPointer.MarshalToBinary ⟨0, 5, 2, zeroHash⟩)) =
      .ok (DAM_TYPE_BLOB_POINTER, BlobPointer.MarshalToBinary ⟨0, 5, 2, zeroHash⟩) ∧
    BlobPointer.UnmarshalFromBinary
        (BlobPointer.MarshalToBinary ⟨0, 5, 2, zeroHash⟩) =
      .ok ⟨0, 5, 2, zeroHash⟩ ∧
    AvailBackend.GetSequence demoBackend []
        (PackEnvelopeWithMsgType DAM_TYPE_BLOB_POINTER
          (BlobPointer.MarshalToBinary ⟨0, 5, 2, zeroHash⟩)) =
      .ok [[104, 105]] :=
  c2_post_then_get demoBackend [[104, 105]] ⟨5, 2, []⟩ (by decide) (by decide)
    (by decide) rfl rfl (by decide) (by decide) (by decide) rfl (by decide)

/-! ## C3 -/

/-- C3 counterexample: with the fallback store configured, `batchHashes`
non-empty, and the store able to serve every requested item without error,
`GetSequence` on a malformed (empty) envelope nevertheless fails with the
envelope-decode error: the code decodes the envelope and resolves coordinates
before ever consulting the fallback, so the fallback data is not "returned
directly". -/
theorem c3_counterexample :
    (GetMultipleByHash goodStore.fetch [[1]] (goodStore.getOrder [[1]])).2 = none ∧
    (GetMultipleByHash goodStore.fetch [[1]] (goodStore.getOrder [[1]])).1 = [[5]] ∧
    AvailBackend.GetSequence c3backend [[1]] [] =
      .error (.unpackEnvelopeFailed "abi: unmarshalling empty output") := by decide

/-- C3 amended: `GetSequence` always decodes the envelope and resolves its
pointer variant to chain coordinates first — an envelope-decode failure is
returned even when the fallback could serve the data; only after successful
resolution, with a store configured, is `GetMultipleByHash(batchHashes)`
attempted, and if it reports no error its data is returned directly with the
chain blob fetch never performed. -/
theorem c3_decode_first_then_fallback (a : AvailBackend) (fs : FallbackStore)
    (batchHashes : List (List Nat)) (dam : List Nat)
    (hfs : a.fallbackS3Service = some fs) :
    (∀ e, UnpackEnvelopeForMsgType dam = .error e →
      a.GetSequence batchHashes dam = .error (.unpackEnvelopeFailed e)) ∧
    (∀ (t : Nat) (payload : List Nat) (bn ix : Nat) (it : IndexType),
      UnpackEnvelopeForMsgType dam = .ok (t, payload) →
      resolveCoords a t payload = .ok (bn, ix, it) →
      (GetMultipleByHash fs.fetch batchHashes (fs.getOrder batchHashes)).2 = none →
      a.GetSequence batchHashes dam =
        .ok (GetMultipleByHash fs.fetch batchHashes (fs.getOrder batchHashes)).1) := by
  constructor
  · intro e he
    rw [AvailBackend.GetSequence, he]
  · intro t payload bn ix it hdec hres hok
    rw [AvailBackend.GetSequence, hdec]
    simp only [hres, hfs, hok]

/-- Witness for the amended C3: the malformed envelope errors despite a
serviceable fallback, and a well-formed pointer envelope returns the fallback
data directly. -/
theorem c3_decode_first_then_fallback_witness :
    AvailBackend.GetSequence c3backend [[1]] [] =
      .error (.unpackEnvelopeFailed "abi: unmarshalling empty output") ∧
    AvailBackend.GetSequence c3backend [[1]] c3dam = .ok [[5]] := by
  constructor
  · exact (c3_decode_first_then_fallback c3backend goodStore [[1]] [] rfl).1 _
      (by decide)
  · have h := (c3_decode_first_then_fallback c3backend goodStore [[1]] c3dam rfl).2
      DAM_TYPE_BLOB_POINTER (BlobPointer.MarshalToBinary ⟨0, 5, 2, zeroHash⟩)
      5 2 .TxIndex (by decide) (by decide) (by decide)
    simpa using h

/-! ## C10 -/

/-- C10: with a fallback store configured, for every envelope that decodes and
resolves to chain coordinates, `GetSequence` with an empty `batchHashes` list
returns the empty batch sequence with no error: `GetMultipleByHash` over zero
keys yields an empty array and nil error (its zero-worker fan-out has the empty
arrival order), which short-circuits the return — the chain blob fetch
(`a.getData`, arbitrary here) is never consulted. -/
theorem c10_empty_hashes_short_circuit (a : AvailBackend) (fs : FallbackStore)
    (dam : List Nat) (t : Nat) (payload : List Nat) (bn ix : Nat) (it : IndexType)
    (hfs : a.fallbackS3Service = some fs)
    (hsched : fs.getOrder [] = [])
    (hdec : UnpackEnvelopeForMsgType dam = .ok (t, payload))
    (hres : resolveCoords a t payload = .ok (bn, ix, it)) :
    a.GetSequence [] dam = .ok [] := by
  rw [AvailBackend.GetSequence, hdec]
  simp only [hres, hfs, hsched]
  rfl

/-- Witness for C10 on the demo backend with the fallback store attached. -/
theorem c10_empty_hashes_short_circuit_witness :
    AvailBackend.GetSequence c3backend [] c3dam = .ok [] :=
  c10_empty_hashes_short_circuit c3backend goodStore c3dam DAM_TYPE_BLOB_POINTER
    (BlobPointer.MarshalToBinary ⟨0, 5, 2, zeroHash⟩) 5 2 .TxIndex rfl rfl
    (by decide) (by decide)
